import Mathlib

/-!
Verification development for the ONT_VC variant-calling workflow
(`src/ontvc/pipeline_variantcalling.py`) and the task-orchestration engine
its specification describes.

The repository's own code consists of task declarations: file-name patterns
(Python regular expressions made of literal characters, unescaped `.`
wildcards and a single `(\S+)` capture group), output templates, and a
configuration block.  Those are embedded here directly from the source.
The orchestration engine itself (staleness checking, dependency-graph
building, the scheduler state machine, the executor) is an external
collaborator of the repository; it is modelled from the specification in
the second half of this file.
-/

namespace ONTVC

/-! ## Regular-expression pattern model

The pipeline's `regex(...)` patterns are concatenations of three kinds of
atoms: a literal character, an unescaped `.` (which in Python `re` matches
any character except a newline), and one `(\S+)` group (one or more
non-whitespace characters).  Matching is `re.search`: the pattern may match
any contiguous substring of the file name, which is how ruffus filters
input files against a `regex(...)` rule. -/

inductive Atom
  | lit (c : Char)
  | dot
  | nonspacePlus
  deriving DecidableEq

/-- The atoms of a string of literal characters. -/
def lits (s : List Char) : List Atom := s.map Atom.lit

/-- `mgo cs p` decides whether some prefix of `cs` matches the whole atom
list `p` (a match anchored at the start of `cs`, with backtracking for the
`(\S+)` atom). -/
def mgo : List Char → List Atom → Bool
  | _, [] => true
  | [], _ :: _ => false
  | d :: ds, Atom.lit c :: ps => (c == d) && mgo ds ps
  | d :: ds, Atom.dot :: ps => (d != '\n') && mgo ds ps
  | d :: ds, Atom.nonspacePlus :: ps =>
      !d.isWhitespace && (mgo ds ps || mgo ds (Atom.nonspacePlus :: ps))

/-- `research p s` is Python's `re.search`: does `p` match starting at some
position of `s`? -/
def research : List Atom → List Char → Bool
  | p, [] => mgo [] p
  | p, c :: t => mgo (c :: t) p || research p t

/-- The number of literal occurrences of the character `c` in a pattern. -/
def litCount (c : Char) : List Atom → Nat
  | [] => 0
  | Atom.lit d :: ps => (if d = c then 1 else 0) + litCount c ps
  | Atom.dot :: ps => litCount c ps
  | Atom.nonspacePlus :: ps => litCount c ps

/-! ## Occurrence of a substring -/

/-- `occursIn w s`: `w` occurs as a contiguous substring of `s`. -/
def occursIn (w s : List Char) : Prop := ∃ u v, s = u ++ w ++ v

/-! ## The pipeline's patterns (from `src/ontvc/pipeline_variantcalling.py`) -/

/-- `run_mapping`'s input pattern (source lines 88-89):
`regex("{DATADIR}/(\S+).fastq.gz")`, parametrised by the atoms of the
formatted `DATADIR` value (`[Atom.dot]` when `DATADIR = "."`, since the dot
is unescaped). -/
def run_mapping_regex (datadir : List Atom) : List Atom :=
  datadir ++ [Atom.lit '/', Atom.nonspacePlus, Atom.dot] ++ lits "fastq".data ++
    [Atom.dot] ++ lits "gz".data

/-- `filter_variants`' input pattern (source line 122):
`regex("Clair.dir/(\S+)/full_alignment.vcf.gz/pileup.vcf.gz")`; every
unescaped `.` is a wildcard atom. -/
def filter_variants_regex : List Atom :=
  lits "Clair".data ++ [Atom.dot] ++ lits "dir/".data ++ [Atom.nonspacePlus] ++
    lits "/full_alignment".data ++ [Atom.dot] ++ lits "vcf".data ++ [Atom.dot] ++
    lits "gz/pileup".data ++ [Atom.dot] ++ lits "vcf".data ++ [Atom.dot] ++ lits "gz".data

/-- `run_clair3`'s output path for captured sample name `s` (source line 109:
output template `r"Clair.dir/\1/full_alignment.vcf.gz"`). -/
def run_clair3_output (s : List Char) : List Char :=
  "Clair.dir/".data ++ s ++ "/full_alignment.vcf.gz".data

/-! ## The DATADIR configuration block (source lines 69-79) -/

/-- A Python parameter value: an integer or a string. -/
inductive PVal
  | int (n : Int)
  | str (s : String)
  deriving DecidableEq

/-- The Python exceptions relevant to the DATADIR block. -/
inductive PyExc
  | KeyError
  | NameError
  deriving DecidableEq

/-- Subscripting a mapping: `PARAMS['data']` raises `KeyError` when the key
is absent. -/
def subscriptLookup (params : List (String × PVal)) (key : String) : Except PyExc PVal :=
  match params.find? (fun e => e.1 == key) with
  | some e => Except.ok e.2
  | none => Except.error PyExc.KeyError

/-- The `try/except NameError/else` block of source lines 69-79 computing
`DATADIR`.  Only `NameError` is caught by the handler; any other exception
from evaluating `PARAMS['data']` propagates and module initialization
fails. -/
def datadirBlock (params : List (String × PVal)) : Except PyExc PVal :=
  match subscriptLookup params "data" with
  | Except.error PyExc.NameError => Except.ok (PVal.str ".")
  | Except.error e => Except.error e
  | Except.ok v =>
      Except.ok (if v = PVal.int 0 then PVal.str "."
                 else if v = PVal.int 1 then PVal.str "data.dir"
                 else v)

/-! ## The orchestration engine: data model and staleness

The engine (CGAT-core/ruffus) is an external collaborator of this
repository; the definitions below are modelled from the specification
(sections 3, 4.3, 4.5), which is the only description of it available
here. -/

/-- Modelled from the spec: a Task Instance (§3) — the index of the Task
Definition that produced it, the indices of its bound upstream instances,
its raw file inputs, and its declared outputs.  Instances are numbered
topologically by the graph builder, so every `deps` entry of a well-formed
workflow is smaller than the instance's own index. -/
structure TaskInstance where
  defIdx : Nat
  deps : List Nat
  inputs : List String
  outputs : List String
  deriving DecidableEq

instance : Inhabited TaskInstance := ⟨⟨0, [], [], []⟩⟩

/-- A filesystem snapshot: an association list from path to modification
time; an earlier entry shadows later ones. -/
abbrev FS := List (String × Nat)

/-- Modification time of a path, `none` when the file does not exist. -/
def mtime (fs : FS) (p : String) : Option Nat :=
  (fs.find? (fun e => e.1 == p)).map (fun e => e.2)

/-- Stamp every path of `ps` with modification time `t`. -/
def stampAll (fs : FS) (ps : List String) (t : Nat) : FS :=
  ps.map (fun p => (p, t)) ++ fs

def depsOf (w : List TaskInstance) (i : Nat) : List Nat := (w.getD i default).deps

def inputsOf (w : List TaskInstance) (i : Nat) : List String := (w.getD i default).inputs

def outputsOf (w : List TaskInstance) (i : Nat) : List String := (w.getD i default).outputs

/-- The bound inputs of an instance: its raw file inputs together with all
outputs of its direct upstream instances (§4.3). -/
def boundInputs (w : List TaskInstance) (i : Nat) : List String :=
  inputsOf w i ++ (depsOf w i).flatMap (fun d => outputsOf w d)

/-- Transitive upstream instances, computed with fuel.  `transDeps w i`
uses fuel `i`, which suffices under the topological numbering. -/
def transDepsF (w : List TaskInstance) : Nat → Nat → List Nat
  | 0, _ => []
  | fuel + 1, i => (depsOf w i).flatMap (fun d => d :: transDepsF w fuel d)

def transDeps (w : List TaskInstance) (i : Nat) : List Nat := transDepsF w i i

/-- Is the declared output `o` strictly older than the bound input `inp`?
(Both must exist for the comparison to fire.) -/
def olderThan (fs : FS) (o inp : String) : Bool :=
  match mtime fs o, mtime fs inp with
  | some a, some b => decide (a < b)
  | _, _ => false

/-- Modelled from the spec (§4.3 Staleness Checker): an instance is stale
iff some declared output is missing, or some declared output's modification
time predates that of some bound input, or some upstream instance it
transitively depends on was executed during the current run. -/
def is_stale (w : List TaskInstance) (fs : FS) (executed : List Nat) (i : Nat) : Bool :=
  (outputsOf w i).any (fun o => (mtime fs o).isNone) ||
  (outputsOf w i).any (fun o => (boundInputs w i).any (fun inp => olderThan fs o inp)) ||
  (transDeps w i).any (fun u => executed.contains u)

/-- Transitive reachability along a successor-list function: `Reach g i u`
holds when `u` is reachable from `i` by one or more `g`-edges. -/
inductive Reach (g : Nat → List Nat) : Nat → Nat → Prop
  | direct {i d : Nat} : d ∈ g i → Reach g i d
  | step {i d u : Nat} : d ∈ g i → Reach g d u → Reach g i u

/-- A concrete two-instance workflow (a mapping step feeding a calling
step) used to witness C1. -/
def cw1 : List TaskInstance :=
  [⟨0, [], ["raw.fastq.gz"], ["mapped.bam"]⟩, ⟨1, [0], [], ["calls.vcf.gz"]⟩]

/-! ## The scheduler state machine (modelled from the spec, §4.5) -/

/-- Why an instance failed: its own action failed, or an upstream failure
blocked it. -/
inductive FailReason
  | actionFailed
  | blockedByUpstream
  deriving DecidableEq

/-- Lifecycle state of a Task Instance. -/
inductive St
  | pending
  | ready
  | running
  | succeeded
  | failed (r : FailReason)
  | skipped
  deriving DecidableEq

/-- Run State (§3): lifecycle states, the filesystem, a monotone clock used
to stamp freshly created outputs, and the instances executed so far during
the current run. -/
structure RunState where
  states : List St
  fs : FS
  clock : Nat
  executed : List Nat
  deriving DecidableEq

def getSt (rs : RunState) (i : Nat) : St := rs.states.getD i St.pending

def setSt (rs : RunState) (i : Nat) (st : St) : RunState :=
  { rs with states := rs.states.set i st }

/-- All direct upstream instances are `succeeded` or `skipped`. -/
def depsOk (w : List TaskInstance) (rs : RunState) (i : Nat) : Bool :=
  (depsOf w i).all (fun d => getSt rs d == St.succeeded || getSt rs d == St.skipped)

/-- Some direct upstream instance is `failed`. -/
def hasFailedDep (w : List TaskInstance) (rs : RunState) (i : Nat) : Bool :=
  (depsOf w i).any (fun d =>
    match getSt rs d with
    | St.failed _ => true
    | _ => false)

def runningCount (rs : RunState) : Nat :=
  rs.states.countP (fun s => s == St.running)

/-- The initial Run State: all instances pending, nothing executed; `c` is
the start-of-run clock, strictly later than every snapshot mtime. -/
def initRS (w : List TaskInstance) (fs : FS) (c : Nat) : RunState :=
  ⟨List.replicate w.length St.pending, fs, c, []⟩

/-- Modelled from the spec (§4.5 Scheduler Loop, §4.4 Executor, §4.7
failure propagation): one scheduling transition.  `act i` tells whether
instance `i`'s opaque action succeeds when executed; `k` is the local
concurrency limit.  A completing action stamps its declared outputs with
the current clock. -/
inductive Step (w : List TaskInstance) (act : Nat → Bool) (k : Nat) : RunState → RunState → Prop
  | promote (rs : RunState) (i : Nat) (hi : i < w.length)
      (hp : getSt rs i = St.pending) (hd : depsOk w rs i = true)
      (hs : is_stale w rs.fs rs.executed i = true) :
      Step w act k rs (setSt rs i St.ready)
  | skip (rs : RunState) (i : Nat) (hi : i < w.length)
      (hp : getSt rs i = St.pending) (hd : depsOk w rs i = true)
      (hs : is_stale w rs.fs rs.executed i = false) :
      Step w act k rs (setSt rs i St.skipped)
  | block (rs : RunState) (i : Nat) (hi : i < w.length)
      (hp : getSt rs i = St.pending) (hb : hasFailedDep w rs i = true) :
      Step w act k rs (setSt rs i (St.failed FailReason.blockedByUpstream))
  | dispatch (rs : RunState) (i : Nat) (hi : i < w.length)
      (hr : getSt rs i = St.ready) (hc : runningCount rs < k) :
      Step w act k rs (setSt rs i St.running)
  | completeOk (rs : RunState) (i : Nat) (hi : i < w.length)
      (hr : getSt rs i = St.running) (ha : act i = true) :
      Step w act k rs
        ⟨rs.states.set i St.succeeded, stampAll rs.fs (outputsOf w i) rs.clock,
         rs.clock + 1, i :: rs.executed⟩
  | completeFail (rs : RunState) (i : Nat) (hi : i < w.length)
      (hr : getSt rs i = St.running) (ha : act i = false) :
      Step w act k rs
        ⟨rs.states.set i (St.failed FailReason.actionFailed), rs.fs, rs.clock,
         i :: rs.executed⟩

/-- Reachability of a Run State by scheduler transitions. -/
def Reachable (w : List TaskInstance) (act : Nat → Bool) (k : Nat) : RunState → RunState → Prop :=
  Relation.ReflTransGen (Step w act k)

/-- No scheduler transition applies any more (the run is over). -/
def Stuck (w : List TaskInstance) (act : Nat → Bool) (k : Nat) (rs : RunState) : Prop :=
  ∀ rs2, ¬ Step w act k rs rs2

/-- Five independent single-output instances (the C7 scenario). -/
def cw7 : List TaskInstance :=
  [⟨0, [], [], ["o0"]⟩, ⟨1, [], [], ["o1"]⟩, ⟨2, [], [], ["o2"]⟩,
   ⟨3, [], [], ["o3"]⟩, ⟨4, [], [], ["o4"]⟩]

def c7rs0 : RunState := initRS cw7 [] 1

def c7rs1 : RunState := setSt c7rs0 0 St.ready

def c7rs2 : RunState := setSt c7rs1 0 St.running

def c7rs3 : RunState := setSt c7rs2 1 St.ready

def c7rs4 : RunState := setSt c7rs3 1 St.running

/-! ## Run invariants -/

/-- States an instance can only be in after its direct upstreams settled
(`succeeded` or `skipped`): every state except `pending` and
`failed blockedByUpstream`. -/
def stAfterDeps : St → Bool
  | St.pending => false
  | St.failed FailReason.blockedByUpstream => false
  | _ => true

/-- The outputs of instance `i` are fresh in `fs`: they all exist, and no
bound input is strictly newer than any of them. -/
def outputsFresh (w : List TaskInstance) (fs : FS) (i : Nat) : Prop :=
  ∀ o ∈ outputsOf w i, ∃ a, mtime fs o = some a ∧
    ∀ inp ∈ boundInputs w i, ∀ b, mtime fs inp = some b → b ≤ a

/-- Distinct instances write distinct output paths (the engine's
`AmbiguousOutput` check, §4.2), and raw inputs are not produced by any
instance (a path produced upstream is bound as a dependency instead). -/
def OutputsSeparated (w : List TaskInstance) : Prop :=
  (∀ i < w.length, ∀ j < w.length, i ≠ j → ∀ p ∈ outputsOf w i, p ∉ outputsOf w j) ∧
  (∀ i < w.length, ∀ p ∈ inputsOf w i, ∀ j < w.length, p ∉ outputsOf w j)

/-- Modelled from the spec: the invariant the Scheduler Loop maintains over
a run started with a clock later than every snapshot mtime. -/
structure Inv (w : List TaskInstance) (rs : RunState) : Prop where
  len : rs.states.length = w.length
  clockLt : ∀ p a, mtime rs.fs p = some a → a < rs.clock
  fresh : ∀ i, getSt rs i = St.succeeded ∨ getSt rs i = St.skipped → outputsFresh w rs.fs i
  depsTerm : ∀ i, stAfterDeps (getSt rs i) = true →
    ∀ d ∈ depsOf w i, getSt rs d = St.succeeded ∨ getSt rs d = St.skipped
  execSt : ∀ i ∈ rs.executed,
    getSt rs i = St.succeeded ∨ getSt rs i = St.failed FailReason.actionFailed
  failedFrom : ∀ i r, getSt rs i = St.failed r →
    ∃ f, (f = i ∨ Reach (depsOf w) i f) ∧ getSt rs f = St.failed FailReason.actionFailed

/-! ## Stuck states -/

/-- Executable check: some scheduler transition applies at `rs`. -/
def canStep (w : List TaskInstance) (k : Nat) (rs : RunState) : Bool :=
  (List.range w.length).any (fun i =>
    (getSt rs i == St.pending && (depsOk w rs i || hasFailedDep w rs i)) ||
    (getSt rs i == St.ready && decide (runningCount rs < k)) ||
    (getSt rs i == St.running))

/-- A three-instance workflow for the C3 witness: instance 0 fails its
action, instance 1 depends on it, instance 2 is an unrelated branch. -/
def cw3 : List TaskInstance :=
  [⟨0, [], [], ["o0"]⟩, ⟨1, [0], [], ["o1"]⟩, ⟨2, [], [], ["o2"]⟩]

/-- The action outcomes for the C3 witness: instance 0 fails. -/
def act3 : Nat → Bool := fun n => n != 0

def c3rs0 : RunState := initRS cw3 [] 1

def c3rs1 : RunState := setSt c3rs0 0 St.ready

def c3rs2 : RunState := setSt c3rs1 0 St.running

def c3rs3 : RunState :=
  ⟨c3rs2.states.set 0 (St.failed FailReason.actionFailed), c3rs2.fs, c3rs2.clock,
   0 :: c3rs2.executed⟩

def c3rs4 : RunState := setSt c3rs3 1 (St.failed FailReason.blockedByUpstream)

def c3rs5 : RunState := setSt c3rs4 2 St.ready

def c3rs6 : RunState := setSt c3rs5 2 St.running

def c3rs7 : RunState :=
  ⟨c3rs6.states.set 2 St.succeeded, stampAll c3rs6.fs (outputsOf cw3 2) c3rs6.clock,
   c3rs6.clock + 1, 2 :: c3rs6.executed⟩

/-- Executable form of `OutputsSeparated`, for concrete witnesses. -/
def outputsSeparatedB (w : List TaskInstance) : Bool :=
  ((List.range w.length).all (fun i => (List.range w.length).all (fun j =>
    (i == j) || (outputsOf w i).all (fun p => !(outputsOf w j).contains p)))) &&
  ((List.range w.length).all (fun i => (inputsOf w i).all (fun p =>
    (List.range w.length).all (fun j => !(outputsOf w j).contains p))))

/-- The A→B→C chain of the C2 scenario. -/
def cwChain : List TaskInstance :=
  [⟨0, [], [], ["a.out"]⟩, ⟨1, [0], [], ["b.out"]⟩, ⟨2, [1], [], ["c.out"]⟩]

def c2rs0 : RunState := initRS cwChain [] 1

def c2rs1 : RunState := setSt c2rs0 0 St.ready

def c2rs2 : RunState := setSt c2rs1 0 St.running

def c2rs3 : RunState :=
  ⟨c2rs2.states.set 0 St.succeeded, stampAll c2rs2.fs (outputsOf cwChain 0) c2rs2.clock,
   c2rs2.clock + 1, 0 :: c2rs2.executed⟩

def c2rs4 : RunState := setSt c2rs3 1 St.ready

def c2rs5 : RunState := setSt c2rs4 1 St.running

def c2rs6 : RunState :=
  ⟨c2rs5.states.set 1 St.succeeded, stampAll c2rs5.fs (outputsOf cwChain 1) c2rs5.clock,
   c2rs5.clock + 1, 1 :: c2rs5.executed⟩

def c2rs7 : RunState := setSt c2rs6 2 St.ready

def c2rs8 : RunState := setSt c2rs7 2 St.running

def c2rs9 : RunState :=
  ⟨c2rs8.states.set 2 St.succeeded, stampAll c2rs8.fs (outputsOf cwChain 2) c2rs8.clock,
   c2rs8.clock + 1, 2 :: c2rs8.executed⟩

def c2bs0 : RunState := initRS cwChain c2rs9.fs 4

def c2bs1 : RunState := setSt c2bs0 0 St.skipped

def c2bs2 : RunState := setSt c2bs1 1 St.skipped

def c2bs3 : RunState := setSt c2bs2 2 St.skipped

/-! ## Lifecycle transition shapes (claim C6) -/

/-- The transitions listed by the specification's state-machine sentence:
`pending→ready`, `ready→running`, `running→succeeded`, `running→failed`,
`pending→skipped`.  (It omits the blocked transition required by failure
propagation.) -/
def claimAllowedTrans (x y : St) : Bool :=
  (x == St.pending && y == St.ready) ||
  (x == St.ready && y == St.running) ||
  (x == St.running &&
    (match y with
     | St.succeeded => true
     | St.failed _ => true
     | _ => false)) ||
  (x == St.pending && y == St.skipped)

/-- A two-instance workflow whose first instance fails, for the C6
counterexample. -/
def cw6 : List TaskInstance := [⟨0, [], [], ["x0"]⟩, ⟨1, [0], [], ["x1"]⟩]

def act6 : Nat → Bool := fun _ => false

def c6rs0 : RunState := initRS cw6 [] 1

def c6rs1 : RunState := setSt c6rs0 0 St.ready

def c6rs2 : RunState := setSt c6rs1 0 St.running

def c6rs3 : RunState :=
  ⟨c6rs2.states.set 0 (St.failed FailReason.actionFailed), c6rs2.fs, c6rs2.clock,
   0 :: c6rs2.executed⟩

def c6rs4 : RunState := setSt c6rs3 1 (St.failed FailReason.blockedByUpstream)

/-! ## The dependency-graph builder (modelled from the spec, §4.2) -/

/-- Aggregation mode of a Task Definition (§3). -/
inductive AggMode
  | oneToOne
  | manyToOne
  deriving DecidableEq

/-- Modelled from the spec: a Task Definition — references to upstream
definitions (as declared by the workflow author), an input pattern over
paths, an output template, an aggregation mode, and the fixed output path
used by a `manyToOne` merge. -/
structure TaskDefn where
  upstreamRefs : List Nat
  inputPat : String → Bool
  outputOf : String → String
  mode : AggMode
  mergeOut : String

instance : Inhabited TaskDefn := ⟨⟨[], fun _ => false, id, AggMode.oneToOne, ""⟩⟩

def refsOf (defs : List TaskDefn) (i : Nat) : List Nat := (defs.getD i default).upstreamRefs

/-- The matched upstream pairs (instance index, output path) of a
definition: outputs of already-built instances of its upstream definitions
that match its input pattern. -/
def matchedUpstream (built : List TaskInstance) (td : TaskDefn) : List (Nat × String) :=
  built.enum.flatMap (fun e =>
    if e.2.defIdx ∈ td.upstreamRefs then
      (e.2.outputs.filter td.inputPat).map (fun o => (e.1, o))
    else [])

/-- Modelled from the spec: the instances one definition contributes, given
the instances built so far and the filesystem snapshot (used by
definitions with no upstream reference, which read raw files).
`oneToOne` creates one instance per match; `manyToOne` aggregates all
matches into a single fan-in instance. -/
def instancesFor (td : TaskDefn) (dIdx : Nat) (built : List TaskInstance)
    (snapshot : List String) : List TaskInstance :=
  if td.upstreamRefs.isEmpty then
    match td.mode with
    | AggMode.oneToOne =>
        (snapshot.filter td.inputPat).map (fun p => ⟨dIdx, [], [p], [td.outputOf p]⟩)
    | AggMode.manyToOne => [⟨dIdx, [], snapshot.filter td.inputPat, [td.mergeOut]⟩]
  else
    let ms := matchedUpstream built td
    match td.mode with
    | AggMode.oneToOne => ms.map (fun e => ⟨dIdx, [e.1], [], [td.outputOf e.2]⟩)
    | AggMode.manyToOne => [⟨dIdx, ms.map (fun e => e.1), [], [td.mergeOut]⟩]

/-- Modelled from the spec: instantiate definitions in dependency order,
appending each definition's instances. -/
def instantiateDefs (defs : List TaskDefn) (ord : List Nat) (snapshot : List String) :
    List TaskInstance :=
  ord.foldl (fun built d =>
    built ++ instancesFor (defs.getD d default) d built snapshot) []

/-- The two definitions of the C5 scenario: a one-to-one mapping step and a
many-to-one merge over it. -/
def mergeDefn0 : TaskDefn := ⟨[], fun _ => true, fun p => p ++ ".out", AggMode.oneToOne, ""⟩

def mergeDefn1 : TaskDefn := ⟨[0], fun _ => true, id, AggMode.manyToOne, "merged.vcf"⟩

def mergeDefs : List TaskDefn := [mergeDefn0, mergeDefn1]

def mergeSnap : List String := ["a.snf", "b.snf", "c.snf"]

/-- The three upstream instances built for the merge scenario. -/
def mergeBuilt : List TaskInstance :=
  [⟨0, [], ["a.snf"], ["a.snf.out"]⟩, ⟨0, [], ["b.snf"], ["b.snf.out"]⟩,
   ⟨0, [], ["c.snf"], ["c.snf.out"]⟩]

/-- The workflow the builder produces for the merge scenario. -/
def cw5 : List TaskInstance := instantiateDefs mergeDefs [0, 1] mergeSnap

def c5rs0 : RunState := initRS cw5 [] 1

def c5rs1 : RunState := setSt c5rs0 0 St.ready

def c5rs2 : RunState := setSt c5rs1 0 St.running

def c5rs3 : RunState :=
  ⟨c5rs2.states.set 0 St.succeeded, stampAll c5rs2.fs (outputsOf cw5 0) c5rs2.clock,
   c5rs2.clock + 1, 0 :: c5rs2.executed⟩

def c5rs4 : RunState := setSt c5rs3 1 St.ready

def c5rs5 : RunState := setSt c5rs4 1 St.running

def c5rs6 : RunState :=
  ⟨c5rs5.states.set 1 St.succeeded, stampAll c5rs5.fs (outputsOf cw5 1) c5rs5.clock,
   c5rs5.clock + 1, 1 :: c5rs5.executed⟩

def c5rs7 : RunState := setSt c5rs6 2 St.ready

def c5rs8 : RunState := setSt c5rs7 2 St.running

def c5rs9 : RunState :=
  ⟨c5rs8.states.set 2 St.succeeded, stampAll c5rs8.fs (outputsOf cw5 2) c5rs8.clock,
   c5rs8.clock + 1, 2 :: c5rs8.executed⟩

def c5rs10 : RunState := setSt c5rs9 3 St.ready

/-! ## Cycle detection in the graph builder (claim C4) -/

/-- The builder's graph-definition error. -/
inductive BuildError
  | CyclicDependency
  deriving DecidableEq

/-- An unresolved definition whose upstream references are all resolved. -/
def pickReady (defs : List TaskDefn) (done : List Nat) : Option Nat :=
  (List.range defs.length).find? (fun i =>
    !done.contains i && (refsOf defs i).all (fun d => done.contains d))

/-- Modelled from the spec (§4.2): resolve definitions into a dependency
order, failing with `CyclicDependency` when unresolved definitions remain
but none has fully resolved upstreams (standard DAG cycle detection). -/
def topoSort (defs : List TaskDefn) : Nat → List Nat → Except BuildError (List Nat)
  | 0, done =>
      if done.length = defs.length then Except.ok done
      else Except.error BuildError.CyclicDependency
  | fuel + 1, done =>
      if done.length = defs.length then Except.ok done
      else
        match pickReady defs done with
        | none => Except.error BuildError.CyclicDependency
        | some i => topoSort defs fuel (done ++ [i])

def resolveOrder (defs : List TaskDefn) : Except BuildError (List Nat) :=
  topoSort defs defs.length []

/-- Modelled from the spec: graph building resolves the definition order
first; only on success are Task Instances created, and only existing
instances can ever be dispatched. -/
def buildGraph (defs : List TaskDefn) (snapshot : List String) :
    Except BuildError (List TaskInstance) :=
  match resolveOrder defs with
  | Except.error e => Except.error e
  | Except.ok ord => Except.ok (instantiateDefs defs ord snapshot)

/-- Invariant of the growing resolution order: no duplicates, all indices
in range, and every definition's upstream references resolved earlier. -/
def DoneInv (defs : List TaskDefn) (done : List Nat) : Prop :=
  done.Nodup ∧ (∀ i ∈ done, i < defs.length) ∧
  ∀ a i b, done = a ++ i :: b → ∀ d ∈ refsOf defs i, d ∈ a

/-- Two mutually dependent definitions: a genuine cycle. -/
def cyclicDefs : List TaskDefn :=
  [⟨[1], fun _ => true, id, AggMode.oneToOne, ""⟩,
   ⟨[0], fun _ => true, id, AggMode.oneToOne, ""⟩]

/-! ## Theorems -/

lemma mgo_nil_true {cs : List Char} : mgo cs [] = true := by
  cases cs <;> rfl

lemma mgo_of_empty {p : List Atom} (h : mgo [] p = true) : p = [] := by
  cases p with
  | nil => rfl
  | cons a ps => cases a <;> simp [mgo] at h

lemma mgo_litCount (c : Char) :
    ∀ (cs : List Char) (p : List Atom), mgo cs p = true → litCount c p ≤ cs.count c := by
  intro cs
  induction cs with
  | nil =>
    intro p h
    rw [mgo_of_empty h]
    exact Nat.le_refl _
  | cons d ds ih =>
    intro p h
    cases p with
    | nil => simp [litCount]
    | cons a ps =>
      have hcount : (d :: ds).count c = ds.count c + (if (d == c) = true then 1 else 0) :=
        List.count_cons c d ds
      cases a with
      | lit e =>
        simp only [mgo, Bool.and_eq_true, beq_iff_eq] at h
        obtain ⟨hed, hrest⟩ := h
        have hps := ih ps hrest
        simp only [litCount]
        rw [hcount]
        by_cases hec : e = c
        · have hdc : (d == c) = true := by
            rw [← hed, hec]
            exact beq_self_eq_true c
          rw [if_pos hec, if_pos hdc]
          omega
        · have hdc : ¬ ((d == c) = true) := by
            simp only [beq_iff_eq]
            rw [← hed]
            exact hec
          rw [if_neg hec, if_neg hdc]
          omega
      | dot =>
        simp only [mgo, Bool.and_eq_true] at h
        have hps := ih ps h.2
        simp only [litCount]
        rw [hcount]
        omega
      | nonspacePlus =>
        simp only [mgo, Bool.and_eq_true, Bool.or_eq_true] at h
        simp only [litCount]
        rcases h.2 with h2 | h2
        · have hps := ih ps h2
          rw [hcount]
          omega
        · have hps := ih (Atom.nonspacePlus :: ps) h2
          simp only [litCount] at hps
          rw [hcount]
          omega

lemma research_litCount (c : Char) (p : List Atom) :
    ∀ s : List Char, research p s = true → litCount c p ≤ s.count c := by
  intro s
  induction s with
  | nil =>
    intro h
    simp only [research] at h
    rw [mgo_of_empty h]
    exact Nat.le_refl _
  | cons d ds ih =>
    intro h
    simp only [research, Bool.or_eq_true] at h
    rcases h with h | h
    · exact mgo_litCount c (d :: ds) p h
    · have := ih h
      have hcount : (d :: ds).count c = ds.count c + (if (d == c) = true then 1 else 0) :=
        List.count_cons c d ds
      rw [hcount]
      omega

lemma occursIn_length {w s : List Char} (h : occursIn w s) : w.length ≤ s.length := by
  obtain ⟨u, v, rfl⟩ := h
  simp [List.length_append]
  omega

lemma occursIn_of_split {w1 w2 s : List Char} (h : occursIn (w1 ++ w2) s) : occursIn w1 s := by
  obtain ⟨u, v, rfl⟩ := h
  exact ⟨u, w2 ++ v, by simp [List.append_assoc]⟩

lemma occursIn_append_cases {w a b : List Char} (h : occursIn w (a ++ b)) :
    occursIn w a ∨ occursIn w b ∨
      ∃ w1 w2, w = w1 ++ w2 ∧ w1 ≠ [] ∧ w2 ≠ [] ∧
        (∃ a1, a = a1 ++ w1) ∧ ∃ b2, b = w2 ++ b2 := by
  obtain ⟨u, v, huv⟩ := h
  rw [List.append_assoc] at huv
  rcases List.append_eq_append_iff.mp huv with ⟨x, hu, hb⟩ | ⟨x, ha, hx⟩
  · right; left
    exact ⟨x, v, by rw [hb, List.append_assoc]⟩
  · rcases List.append_eq_append_iff.mp hx with ⟨y, hxw, hv⟩ | ⟨y, hw, hby⟩
    · left
      exact ⟨u, y, by rw [ha, hxw, List.append_assoc]⟩
    · rcases List.eq_nil_or_concat x with rfl | hxc
      · right; left
        refine ⟨[], v, ?_⟩
        simp only [List.nil_append] at hw
        rw [hby, hw]
        rfl
      · rcases List.eq_nil_or_concat y with rfl | hyc
        · left
          refine ⟨u, [], ?_⟩
          rw [List.append_nil] at hw
          rw [ha, hw, List.append_assoc, List.append_nil]
        · right; right
          refine ⟨x, y, hw, ?_, ?_, ⟨u, ha⟩, ⟨v, hby⟩⟩
          · obtain ⟨l, a', rfl⟩ := hxc
            simp
          · obtain ⟨l, a', rfl⟩ := hyc
            simp

/-! ## Peeling a successful match -/

lemma mgo_cons_lit {c : Char} {ps : List Atom} {cs : List Char}
    (h : mgo cs (Atom.lit c :: ps) = true) : ∃ t, cs = c :: t ∧ mgo t ps = true := by
  cases cs with
  | nil => simp [mgo] at h
  | cons d ds =>
    simp only [mgo, Bool.and_eq_true, beq_iff_eq] at h
    exact ⟨ds, by rw [h.1], h.2⟩

lemma mgo_cons_dot {ps : List Atom} {cs : List Char}
    (h : mgo cs (Atom.dot :: ps) = true) : ∃ c t, cs = c :: t ∧ mgo t ps = true := by
  cases cs with
  | nil => simp [mgo] at h
  | cons d ds =>
    simp only [mgo, Bool.and_eq_true] at h
    exact ⟨d, ds, rfl, h.2⟩

lemma mgo_cons_nsp {ps : List Atom} :
    ∀ {cs : List Char}, mgo cs (Atom.nonspacePlus :: ps) = true →
      ∃ a t, cs = a ++ t ∧ mgo t ps = true := by
  intro cs
  induction cs with
  | nil =>
    intro h
    simp [mgo] at h
  | cons d ds ih =>
    intro h
    simp only [mgo, Bool.and_eq_true, Bool.or_eq_true] at h
    rcases h.2 with h2 | h2
    · exact ⟨[d], ds, rfl, h2⟩
    · obtain ⟨a, t, hat, hm⟩ := ih h2
      exact ⟨d :: a, t, by rw [hat]; rfl, hm⟩

lemma research_split {p : List Atom} :
    ∀ {s : List Char}, research p s = true → ∃ u t, s = u ++ t ∧ mgo t p = true := by
  intro s
  induction s with
  | nil =>
    intro h
    simp only [research] at h
    exact ⟨[], [], rfl, h⟩
  | cons c rest ih =>
    intro h
    simp only [research, Bool.or_eq_true] at h
    rcases h with h | h
    · exact ⟨[], c :: rest, rfl, h⟩
    · obtain ⟨u, t, hut, hm⟩ := ih h
      exact ⟨c :: u, t, by rw [hut]; rfl, hm⟩

/-- Claim C8: the output path of `run_clair3` for a sample name `s` is never
matched by `filter_variants`' input pattern.  Sample names are captured from
glob base names and therefore contain no `/`; the pattern has three literal
`/` atoms while the output path contains only two slashes, so no substring
of the path can match. -/
theorem c8_filter_never_matches_clair3_output (s : List Char) (hs : s.count '/' = 0) :
    research filter_variants_regex (run_clair3_output s) = false := by
  rw [Bool.eq_false_iff]
  intro h
  have hle := research_litCount '/' filter_variants_regex (run_clair3_output s) h
  have h3 : litCount '/' filter_variants_regex = 3 := by decide
  have hcnt : List.count '/' (run_clair3_output s) = 2 := by
    unfold run_clair3_output
    rw [List.count_append, List.count_append]
    have h1 : List.count '/' "Clair.dir/".data = 1 := by decide
    have h2 : List.count '/' "/full_alignment.vcf.gz".data = 1 := by decide
    rw [h1, h2, hs]
  rw [h3, hcnt] at hle
  omega

/-- Witness for C8 at the concrete sample name `sampleA`. -/
theorem c8_witness :
    List.count '/' "sampleA".data = 0 ∧
    research filter_variants_regex (run_clair3_output "sampleA".data) = false :=
  ⟨by decide, c8_filter_never_matches_clair3_output "sampleA".data (by decide)⟩

/-- Any successful `re.search` of `run_mapping`'s pattern (with
`DATADIR = "."`) forces the searched string to contain the substring
`fastq` + ⟨one arbitrary character⟩ + `gz`. -/
lemma research_run_mapping_shape {s : List Char}
    (h : research (run_mapping_regex [Atom.dot]) s = true) :
    ∃ c, occursIn ('f' :: 'a' :: 's' :: 't' :: 'q' :: c :: 'g' :: 'z' :: []) s := by
  have hp : run_mapping_regex [Atom.dot] =
      Atom.dot :: Atom.lit '/' :: Atom.nonspacePlus :: Atom.dot :: Atom.lit 'f' ::
      Atom.lit 'a' :: Atom.lit 's' :: Atom.lit 't' :: Atom.lit 'q' :: Atom.dot ::
      Atom.lit 'g' :: Atom.lit 'z' :: [] := by decide
  rw [hp] at h
  obtain ⟨u0, t0, hs0, hm0⟩ := research_split h
  obtain ⟨c1, t1, he1, hm1⟩ := mgo_cons_dot hm0
  obtain ⟨t2, he2, hm2⟩ := mgo_cons_lit hm1
  obtain ⟨a3, t3, he3, hm3⟩ := mgo_cons_nsp hm2
  obtain ⟨c2, t4, he4, hm4⟩ := mgo_cons_dot hm3
  obtain ⟨t5, he5, hm5⟩ := mgo_cons_lit hm4
  obtain ⟨t6, he6, hm6⟩ := mgo_cons_lit hm5
  obtain ⟨t7, he7, hm7⟩ := mgo_cons_lit hm6
  obtain ⟨t8, he8, hm8⟩ := mgo_cons_lit hm7
  obtain ⟨t9, he9, hm9⟩ := mgo_cons_lit hm8
  obtain ⟨c3, t10, he10, hm10⟩ := mgo_cons_dot hm9
  obtain ⟨t11, he11, hm11⟩ := mgo_cons_lit hm10
  obtain ⟨t12, he12, hm12⟩ := mgo_cons_lit hm11
  refine ⟨c3, u0 ++ c1 :: '/' :: a3 ++ [c2], t12, ?_⟩
  subst hs0 he1 he2 he3 he4 he5 he6 he7 he8 he9 he10 he11 he12
  simp [List.append_assoc]

/-- Claim C9 counterexample: the file name `x.fastq.gz.fastq.1.gz` is
enumerated by the `*.fastq.1.gz` glob entry (it ends in `.fastq.1.gz`),
yet `run_mapping`'s input regex does match the corresponding pipeline path
`./x.fastq.gz.fastq.1.gz` (the `re.search` match is `./x.fastq.gz`). -/
theorem c9_counterexample :
    "x.fastq.gz.fastq.1.gz".data = "x.fastq.gz".data ++ ".fastq.1.gz".data ∧
    research (run_mapping_regex [Atom.dot]) "./x.fastq.gz.fastq.1.gz".data = true :=
  ⟨by decide, by decide⟩

/-- Claim C9 (amended): a path `./name.fastq.1.gz` whose stem `name` does
not contain the substring `fastq` is never matched by `run_mapping`'s input
regex, because any match would need `fastq`, one arbitrary character and
`gz` consecutively, and the `.fastq.1.gz` suffix has two characters between
`fastq` and `gz`. -/
theorem c9_amended (name : List Char) (hfq : ¬ occursIn "fastq".data name) :
    research (run_mapping_regex [Atom.dot])
      ("./".data ++ name ++ ".fastq.1.gz".data) = false := by
  rw [Bool.eq_false_iff]
  intro h
  obtain ⟨c, hocc⟩ := research_run_mapping_shape h
  have hsplit : ('f' :: 'a' :: 's' :: 't' :: 'q' :: c :: 'g' :: 'z' :: ([] : List Char)) =
      "fastq".data ++ (c :: 'g' :: 'z' :: []) := by
    have hfd : "fastq".data = ['f', 'a', 's', 't', 'q'] := by decide
    rw [hfd]
    rfl
  rcases occursIn_append_cases hocc with hA | hB | hX
  · -- the eight-character block lies inside "./" ++ name
    rw [hsplit] at hA
    have hf : occursIn "fastq".data ("./".data ++ name) := occursIn_of_split hA
    rcases occursIn_append_cases hf with h1 | h2 | h3
    · have hl := occursIn_length h1
      have e1 : ("fastq".data).length = 5 := by decide
      have e2 : ("./".data).length = 2 := by decide
      omega
    · exact hfq h2
    · obtain ⟨x, y, hxy, hxne, -, ⟨a1, ha1⟩, -⟩ := h3
      cases x with
      | nil => exact hxne rfl
      | cons z x' =>
        have hfd : "fastq".data = ['f', 'a', 's', 't', 'q'] := by decide
        rw [hfd] at hxy
        simp only [List.cons_append, List.cons.injEq] at hxy
        have hz : z ∈ "./".data := by
          rw [ha1]
          exact List.mem_append_right a1 (List.mem_cons_self z x')
        rw [← hxy.1] at hz
        exact absurd hz (by decide)
  · -- the eight-character block lies inside ".fastq.1.gz"
    obtain ⟨u, v, huv⟩ := hB
    have hBd : ".fastq.1.gz".data = ['.', 'f', 'a', 's', 't', 'q', '.', '1', '.', 'g', 'z'] := by
      decide
    rw [hBd, List.append_assoc] at huv
    have hlen := congrArg List.length huv
    simp only [List.length_append, List.length_cons] at hlen
    have hu3 : u.length ≤ 3 := by
      simp at hlen
      omega
    have hdrop := congrArg (List.drop u.length) huv
    rw [List.drop_left] at hdrop
    set k := u.length with hk
    interval_cases k <;> simp [List.drop_succ_cons, List.drop_zero] at hdrop
  · -- the eight-character block straddles the boundary
    obtain ⟨w1, w2, hw, hw1ne, hw2ne, -, ⟨b2, hb2⟩⟩ := hX
    have hBd : ".fastq.1.gz".data = ['.', 'f', 'a', 's', 't', 'q', '.', '1', '.', 'g', 'z'] := by
      decide
    rw [hBd] at hb2
    have hlenw := congrArg List.length hw
    simp only [List.length_append, List.length_cons, List.length_nil] at hlenw
    have hw1len : 1 ≤ w1.length ∧ w1.length ≤ 7 := by
      constructor
      · cases w1 with
        | nil => exact absurd rfl hw1ne
        | cons z zs => simp
      · have : w2.length ≥ 1 := by
          cases w2 with
          | nil => exact absurd rfl hw2ne
          | cons z zs => simp
        omega
    have hdropw := congrArg (List.drop w1.length) hw
    rw [List.drop_left] at hdropw
    rw [← hdropw] at hb2
    set k := w1.length with hk
    have hk1 : 1 ≤ k := hw1len.1
    have hk7 : k ≤ 7 := hw1len.2
    interval_cases k <;> simp [List.drop_succ_cons, List.drop_zero] at hb2

/-- Witness for the amended C9 at the concrete stem `ab` (whose two
characters cannot contain the five-character substring `fastq`). -/
theorem c9_amended_witness :
    research (run_mapping_regex [Atom.dot])
      ("./".data ++ "ab".data ++ ".fastq.1.gz".data) = false :=
  c9_amended "ab".data (fun hocc => by
    have hl := occursIn_length hocc
    have e1 : ("fastq".data).length = 5 := by decide
    have e2 : ("ab".data).length = 2 := by decide
    omega)

/-- Claim C10: with `'data'` absent from `PARAMS`, the DATADIR block raises
`KeyError` (the `except NameError` handler does not catch it) and module
initialization fails; with the key present, `DATADIR` is `"."` for the
value `0`, `"data.dir"` for the value `1`, and the value itself
otherwise. -/
theorem c10_datadir_block (params : List (String × PVal)) :
    (params.find? (fun e => e.1 == "data") = none →
      datadirBlock params = Except.error PyExc.KeyError) ∧
    (∀ e, params.find? (fun e2 => e2.1 == "data") = some e → e.2 = PVal.int 0 →
      datadirBlock params = Except.ok (PVal.str ".")) ∧
    (∀ e, params.find? (fun e2 => e2.1 == "data") = some e → e.2 = PVal.int 1 →
      datadirBlock params = Except.ok (PVal.str "data.dir")) ∧
    (∀ e, params.find? (fun e2 => e2.1 == "data") = some e →
      e.2 ≠ PVal.int 0 → e.2 ≠ PVal.int 1 →
      datadirBlock params = Except.ok e.2) := by
  refine ⟨?_, ?_, ?_, ?_⟩
  · intro h
    simp [datadirBlock, subscriptLookup, h]
  · intro e h he
    simp [datadirBlock, subscriptLookup, h, he]
  · intro e h he
    simp [datadirBlock, subscriptLookup, h, he]
  · intro e h h0 h1
    simp [datadirBlock, subscriptLookup, h, h0, h1]

/-- Witness for C10 on concrete parameter mappings. -/
theorem c10_witness :
    datadirBlock [("other", PVal.int 5)] = Except.error PyExc.KeyError ∧
    datadirBlock [("data", PVal.int 0)] = Except.ok (PVal.str ".") ∧
    datadirBlock [("data", PVal.int 1)] = Except.ok (PVal.str "data.dir") ∧
    datadirBlock [("data", PVal.str "mydata")] = Except.ok (PVal.str "mydata") :=
  ⟨(c10_datadir_block _).1 (by decide),
   (c10_datadir_block _).2.1 ("data", PVal.int 0) (by decide) rfl,
   (c10_datadir_block _).2.2.1 ("data", PVal.int 1) (by decide) rfl,
   (c10_datadir_block _).2.2.2 ("data", PVal.str "mydata") (by decide)
     (by decide) (by decide)⟩

lemma depsOf_ge (w : List TaskInstance) (i : Nat) (h : w.length ≤ i) : depsOf w i = [] := by
  unfold depsOf
  rw [List.getD_eq_default _ _ h]
  rfl

/-- Topological numbering, stated for all indices (indices beyond the
workflow have no dependencies). -/
lemma wf_all {w : List TaskInstance} (hw : ∀ j < w.length, ∀ d ∈ depsOf w j, d < j) :
    ∀ j, ∀ d ∈ depsOf w j, d < j := by
  intro j d hd
  by_cases hj : j < w.length
  · exact hw j hj d hd
  · rw [depsOf_ge w j (Nat.le_of_not_lt hj)] at hd
    cases hd

lemma mem_transDepsF {w : List TaskInstance} (hw : ∀ j, ∀ d ∈ depsOf w j, d < j) :
    ∀ fuel i, i ≤ fuel → ∀ u, (u ∈ transDepsF w fuel i ↔ Reach (depsOf w) i u) := by
  intro fuel
  induction fuel with
  | zero =>
    intro i hi u
    interval_cases i
    constructor
    · intro h
      simp [transDepsF] at h
    · intro h
      cases h with
      | direct hd => exact absurd (hw 0 _ hd) (by omega)
      | step hd _ => exact absurd (hw 0 _ hd) (by omega)
  | succ fuel ih =>
    intro i hi u
    constructor
    · intro h
      simp only [transDepsF, List.mem_flatMap] at h
      obtain ⟨d, hd, hcase⟩ := h
      rcases List.mem_cons.mp hcase with rfl | hmem
      · exact Reach.direct hd
      · have hdlt := hw i d hd
        exact Reach.step hd ((ih d (by omega) u).mp hmem)
    · intro h
      cases h with
      | direct hd =>
        simp only [transDepsF, List.mem_flatMap]
        exact ⟨_, hd, List.mem_cons_self _ _⟩
      | step hd hr =>
        have hdlt := hw i _ hd
        simp only [transDepsF, List.mem_flatMap]
        refine ⟨_, hd, List.mem_cons_of_mem _ ?_⟩
        exact (ih _ (by omega) u).mpr hr

lemma mem_transDeps {w : List TaskInstance} (hw : ∀ j, ∀ d ∈ depsOf w j, d < j) (i u : Nat) :
    u ∈ transDeps w i ↔ Reach (depsOf w) i u :=
  mem_transDepsF hw i i (Nat.le_refl i) u

lemma olderThan_iff {fs : FS} {o inp : String} :
    olderThan fs o inp = true ↔
      ∃ a b, mtime fs o = some a ∧ mtime fs inp = some b ∧ a < b := by
  unfold olderThan
  rcases mtime fs o with _ | a <;> rcases mtime fs inp with _ | b <;> simp

/-- Claim C1: `is_stale` returns true iff at least one declared output does
not exist, or some declared output's modification time is strictly earlier
than that of some bound input (raw file or upstream output), or some
upstream instance the instance transitively depends on was executed during
the current run. -/
theorem c1_is_stale_iff (w : List TaskInstance) (fs : FS) (executed : List Nat) (i : Nat)
    (hw : ∀ j < w.length, ∀ d ∈ depsOf w j, d < j) :
    is_stale w fs executed i = true ↔
      ((∃ o ∈ outputsOf w i, mtime fs o = none) ∨
       (∃ o ∈ outputsOf w i, ∃ inp ∈ boundInputs w i,
          ∃ a b, mtime fs o = some a ∧ mtime fs inp = some b ∧ a < b) ∨
       (∃ u, Reach (depsOf w) i u ∧ u ∈ executed)) := by
  have hw' := wf_all hw
  unfold is_stale
  simp only [Bool.or_eq_true, List.any_eq_true]
  rw [or_assoc]
  refine or_congr ?_ (or_congr ?_ ?_)
  · simp [Option.isNone_iff_eq_none]
  · constructor
    · rintro ⟨o, ho, inp, hinp, hcmp⟩
      exact ⟨o, ho, inp, hinp, olderThan_iff.mp hcmp⟩
    · rintro ⟨o, ho, inp, hinp, hex⟩
      exact ⟨o, ho, inp, hinp, olderThan_iff.mpr hex⟩
  · constructor
    · rintro ⟨u, hu, hc⟩
      refine ⟨u, (mem_transDeps hw' i u).mp hu, ?_⟩
      simpa using hc
    · rintro ⟨u, hr, hm⟩
      refine ⟨u, (mem_transDeps hw' i u).mpr hr, ?_⟩
      simpa using hm

/-- Witness for C1 at the concrete workflow `cw1`, an empty filesystem and
instance 1. -/
theorem c1_witness :
    is_stale cw1 [] [] 1 = true ↔
      ((∃ o ∈ outputsOf cw1 1, mtime [] o = none) ∨
       (∃ o ∈ outputsOf cw1 1, ∃ inp ∈ boundInputs cw1 1,
          ∃ a b, mtime [] o = some a ∧ mtime [] inp = some b ∧ a < b) ∨
       (∃ u, Reach (depsOf cw1) 1 u ∧ u ∈ ([] : List Nat))) :=
  c1_is_stale_iff cw1 [] [] 1 (by decide)

lemma runningCount_initRS (w : List TaskInstance) (fs : FS) (c : Nat) :
    runningCount (initRS w fs c) = 0 := by
  unfold runningCount initRS
  have h : ∀ n, (List.replicate n St.pending).countP (fun s => s == St.running) = 0 := by
    intro n
    induction n with
    | zero => rfl
    | succ m ih => simp [List.replicate_succ, List.countP_cons, ih]
  exact h _

lemma countP_set_le_of_not {l : List St} {i : Nat} {v : St} (p : St → Bool)
    (hv : p v = false) : (l.set i v).countP p ≤ l.countP p := by
  by_cases hi : i < l.length
  · rw [List.countP_set p l i v hi, hv]
    simp
  · rw [List.set_eq_of_length_le (Nat.le_of_not_lt hi)]

lemma countP_set_le_succ (l : List St) (i : Nat) (v : St) (p : St → Bool) :
    (l.set i v).countP p ≤ l.countP p + 1 := by
  by_cases hi : i < l.length
  · rw [List.countP_set p l i v hi]
    by_cases hv : p v = true
    · rw [hv]
      simp
    · rw [Bool.eq_false_iff.mpr hv]
      simp
      omega
  · rw [List.set_eq_of_length_le (Nat.le_of_not_lt hi)]
    omega

lemma runningCount_step_le {w : List TaskInstance} {act : Nat → Bool} {k : Nat}
    {a b : RunState} (hstep : Step w act k a b) (hk : runningCount a ≤ k) :
    runningCount b ≤ k := by
  cases hstep with
  | promote i hi hp hd hs =>
    have h := countP_set_le_of_not (l := a.states) (i := i) (v := St.ready)
      (fun s => s == St.running) (by decide)
    unfold runningCount setSt at *
    dsimp only at *
    omega
  | skip i hi hp hd hs =>
    have h := countP_set_le_of_not (l := a.states) (i := i) (v := St.skipped)
      (fun s => s == St.running) (by decide)
    unfold runningCount setSt at *
    dsimp only at *
    omega
  | block i hi hp hb =>
    have h := countP_set_le_of_not (l := a.states) (i := i)
      (v := St.failed FailReason.blockedByUpstream) (fun s => s == St.running) (by decide)
    unfold runningCount setSt at *
    dsimp only at *
    omega
  | dispatch i hi hr hc =>
    have h := countP_set_le_succ a.states i St.running (fun s => s == St.running)
    unfold runningCount setSt at *
    dsimp only at *
    omega
  | completeOk i hi hr ha =>
    have h := countP_set_le_of_not (l := a.states) (i := i) (v := St.succeeded)
      (fun s => s == St.running) (by decide)
    unfold runningCount at *
    dsimp only at *
    omega
  | completeFail i hi hr ha =>
    have h := countP_set_le_of_not (l := a.states) (i := i)
      (v := St.failed FailReason.actionFailed) (fun s => s == St.running) (by decide)
    unfold runningCount at *
    dsimp only at *
    omega

/-- Claim C7: with a configured concurrency limit `k`, no reachable Run
State ever has more than `k` instances simultaneously `running` — the
`dispatch` transition is the only one that creates a `running` instance and
it is guarded by `runningCount rs < k`. -/
theorem c7_concurrency_bound (w : List TaskInstance) (act : Nat → Bool) (k : Nat)
    (fs : FS) (c : Nat) (rs : RunState)
    (h : Reachable w act k (initRS w fs c) rs) : runningCount rs ≤ k := by
  induction h with
  | refl =>
    rw [runningCount_initRS]
    omega
  | tail hab hbc ih => exact runningCount_step_le hbc ih

/-- Witness for C7: after promoting and dispatching two of the five
independent instances under limit 2, exactly 2 are running and the bound
from the theorem holds at this reachable state. -/
theorem c7_witness : runningCount c7rs4 = 2 ∧ runningCount c7rs4 ≤ 2 :=
  ⟨by decide,
   c7_concurrency_bound cw7 (fun _ => true) 2 [] 1 c7rs4
     (Relation.ReflTransGen.tail
       (Relation.ReflTransGen.tail
         (Relation.ReflTransGen.tail
           (Relation.ReflTransGen.tail Relation.ReflTransGen.refl
             (Step.promote c7rs0 0 (by decide) (by decide) (by decide) (by decide)))
           (Step.dispatch c7rs1 0 (by decide) (by decide) (by decide)))
         (Step.promote c7rs2 1 (by decide) (by decide) (by decide) (by decide)))
       (Step.dispatch c7rs3 1 (by decide) (by decide) (by decide)))⟩

lemma getSt_of_length_le {rs : RunState} {j : Nat} (h : rs.states.length ≤ j) :
    getSt rs j = St.pending := by
  unfold getSt
  rw [List.getD_eq_default _ _ h]

lemma getSt_upd_self {a b : RunState} {i : Nat} {v : St}
    (hb : b.states = a.states.set i v) (hi : i < a.states.length) : getSt b i = v := by
  unfold getSt
  rw [hb]
  simp [List.getD, List.getElem?_set_self, hi]

lemma getSt_upd_ne {a b : RunState} {i : Nat} {v : St}
    (hb : b.states = a.states.set i v) {j : Nat} (hne : j ≠ i) : getSt b j = getSt a j := by
  unfold getSt
  rw [hb]
  simp [List.getD, List.getElem?_set_ne (Ne.symm hne)]

lemma mtime_stampAll_mem {fs : FS} {ps : List String} {t : Nat} {p : String}
    (h : p ∈ ps) : mtime (stampAll fs ps t) p = some t := by
  induction ps with
  | nil => cases h
  | cons q qs ih =>
    unfold stampAll mtime at *
    simp only [List.map_cons, List.cons_append, List.find?]
    by_cases hq : q = p
    · simp [hq]
    · have hmem : p ∈ qs := by
        rcases List.mem_cons.mp h with rfl | hm
        · exact absurd rfl hq
        · exact hm
      have hbeq : (q == p) = false := by
        simp [hq]
      rw [hbeq]
      exact ih hmem

lemma mtime_stampAll_not_mem {fs : FS} {ps : List String} {t : Nat} {p : String}
    (h : p ∉ ps) : mtime (stampAll fs ps t) p = mtime fs p := by
  induction ps with
  | nil => rfl
  | cons q qs ih =>
    simp only [List.mem_cons, not_or] at h
    unfold stampAll mtime at *
    simp only [List.map_cons, List.cons_append, List.find?]
    have hbeq : (q == p) = false := by
      simp
      exact fun e => h.1 e.symm
    rw [hbeq]
    exact ih h.2

lemma is_stale_false_fresh {w : List TaskInstance} {fs : FS} {ex : List Nat} {i : Nat}
    (h : is_stale w fs ex i = false) : outputsFresh w fs i := by
  unfold is_stale at h
  rw [Bool.or_eq_false_iff, Bool.or_eq_false_iff] at h
  obtain ⟨⟨h1, h2⟩, -⟩ := h
  intro o ho
  have h1o := List.any_eq_false.mp h1 o ho
  rcases hmo : mtime fs o with _ | a
  · rw [hmo] at h1o
    simp at h1o
  · refine ⟨a, rfl, ?_⟩
    intro inp hinp b hmb
    have h2o := List.any_eq_false.mp h2 o ho
    have h2i := List.any_eq_false.mp (Bool.eq_false_iff.mpr h2o) inp hinp
    unfold olderThan at h2i
    rw [hmo, hmb] at h2i
    simp at h2i
    omega

lemma is_stale_false_of_fresh {w : List TaskInstance} {fs : FS} {i : Nat}
    (hf : outputsFresh w fs i) : is_stale w fs [] i = false := by
  unfold is_stale
  rw [Bool.or_eq_false_iff, Bool.or_eq_false_iff]
  refine ⟨⟨?_, ?_⟩, ?_⟩
  · rw [List.any_eq_false]
    intro o ho
    obtain ⟨a, ha, -⟩ := hf o ho
    rw [ha]
    simp
  · rw [List.any_eq_false]
    intro o ho
    obtain ⟨a, ha, hb⟩ := hf o ho
    simp only [Bool.not_eq_true, List.any_eq_false]
    intro inp hinp
    unfold olderThan
    rw [ha]
    rcases hmi : mtime fs inp with _ | b
    · simp
    · have := hb inp hinp b hmi
      simp
      omega
  · rw [List.any_eq_false]
    intro u hu
    simp

lemma depsOk_iff {w : List TaskInstance} {rs : RunState} {i : Nat} :
    depsOk w rs i = true ↔
      ∀ d ∈ depsOf w i, getSt rs d = St.succeeded ∨ getSt rs d = St.skipped := by
  unfold depsOk
  simp [List.all_eq_true]

lemma hasFailedDep_iff {w : List TaskInstance} {rs : RunState} {i : Nat} :
    hasFailedDep w rs i = true ↔
      ∃ d ∈ depsOf w i, ∃ r, getSt rs d = St.failed r := by
  unfold hasFailedDep
  rw [List.any_eq_true]
  constructor
  · rintro ⟨d, hd, hm⟩
    refine ⟨d, hd, ?_⟩
    rcases hst : getSt rs d with _ | _ | _ | _ | r | _ <;> rw [hst] at hm
    · simp at hm
    · simp at hm
    · simp at hm
    · simp at hm
    · exact ⟨r, rfl⟩
    · simp at hm
  · rintro ⟨d, hd, r, hr⟩
    exact ⟨d, hd, by rw [hr]⟩

lemma mem_boundInputs {w : List TaskInstance} {i : Nat} {p : String} :
    p ∈ boundInputs w i ↔
      p ∈ inputsOf w i ∨ ∃ d ∈ depsOf w i, p ∈ outputsOf w d := by
  unfold boundInputs
  simp [List.mem_append, List.mem_flatMap]

lemma settled_lt {w : List TaskInstance} {rs : RunState} (hlen : rs.states.length = w.length)
    {j : Nat} (h : getSt rs j ≠ St.pending) : j < w.length := by
  by_contra hj
  exact h (getSt_of_length_le (by omega))

/-- Instances whose bound inputs cannot be touched by stamping the outputs
of a distinct running instance keep fresh outputs. -/
lemma outputsFresh_stamp {w : List TaskInstance} {a : RunState} {i j : Nat}
    (hw : ∀ m, ∀ d ∈ depsOf w m, d < m) (hsep : OutputsSeparated w)
    (hI : Inv w a) (hi : i < w.length) (hrun : getSt a i = St.running)
    (hset : getSt a j = St.succeeded ∨ getSt a j = St.skipped)
    (hfr : outputsFresh w a.fs j) :
    outputsFresh w (stampAll a.fs (outputsOf w i) a.clock) j := by
  have hj : j < w.length := settled_lt hI.len (by rcases hset with h | h <;> rw [h] <;> simp)
  have hij : j ≠ i := by
    intro e
    rw [e, hrun] at hset
    rcases hset with h | h <;> cases h
  intro o ho
  have honi : o ∉ outputsOf w i := hsep.1 j hj i hi hij o ho
  obtain ⟨av, hav, hbnd⟩ := hfr o ho
  refine ⟨av, ?_, ?_⟩
  · rw [mtime_stampAll_not_mem honi]
    exact hav
  · intro inp hinp bt hmbt
    have hinpni : inp ∉ outputsOf w i := by
      rcases mem_boundInputs.mp hinp with hraw | ⟨d, hd, hout⟩
      · exact hsep.2 j hj inp hraw i hi
      · have hdlt : d < j := hw j d hd
        have hdset := hI.depsTerm j
          (by rcases hset with h | h <;> rw [h] <;> rfl) d hd
        have hdi : d ≠ i := by
          intro e
          rw [e, hrun] at hdset
          rcases hdset with h | h <;> cases h
        exact hsep.1 d (by omega) i hi hdi inp hout
    rw [mtime_stampAll_not_mem hinpni] at hmbt
    exact hbnd inp hinp bt hmbt

/-- The freshly completed instance has fresh outputs: they are stamped with
the current clock, which dominates every other mtime. -/
lemma outputsFresh_stamp_self {w : List TaskInstance} {a : RunState} {i : Nat}
    (hw : ∀ m, ∀ d ∈ depsOf w m, d < m) (hsep : OutputsSeparated w)
    (hI : Inv w a) (hi : i < w.length) :
    outputsFresh w (stampAll a.fs (outputsOf w i) a.clock) i := by
  intro o ho
  refine ⟨a.clock, mtime_stampAll_mem ho, ?_⟩
  intro inp hinp bt hmbt
  have hinpni : inp ∉ outputsOf w i := by
    rcases mem_boundInputs.mp hinp with hraw | ⟨d, hd, hout⟩
    · exact hsep.2 i hi inp hraw i hi
    · have hdlt : d < i := hw i d hd
      exact hsep.1 d (by omega) i hi (by omega) inp hout
  rw [mtime_stampAll_not_mem hinpni] at hmbt
  have := hI.clockLt inp bt hmbt
  omega

/-- Every scheduler transition preserves the run invariant. -/
lemma inv_step {w : List TaskInstance} {act : Nat → Bool} {k : Nat} {a b : RunState}
    (hw : ∀ m, ∀ d ∈ depsOf w m, d < m) (hsep : OutputsSeparated w)
    (hstep : Step w act k a b) (hI : Inv w a) : Inv w b := by
  cases hstep with
  | promote i hi hp hdok hs =>
    have hilen : i < a.states.length := by rw [hI.len]; exact hi
    have hself : getSt (setSt a i St.ready) i = St.ready := getSt_upd_self rfl hilen
    have hother : ∀ j, j ≠ i → getSt (setSt a i St.ready) j = getSt a j :=
      fun j hj => getSt_upd_ne rfl hj
    refine ⟨?_, hI.clockLt, ?_, ?_, ?_, ?_⟩
    · show (a.states.set i St.ready).length = w.length
      rw [List.length_set]
      exact hI.len
    · intro j hj
      by_cases hji : j = i
      · subst hji
        rw [hself] at hj
        rcases hj with h | h <;> cases h
      · rw [hother j hji] at hj
        exact hI.fresh j hj
    · intro j hj d hdm
      have hda : getSt a d = St.succeeded ∨ getSt a d = St.skipped := by
        by_cases hji : j = i
        · subst hji
          exact depsOk_iff.mp hdok d hdm
        · rw [hother j hji] at hj
          exact hI.depsTerm j hj d hdm
      have hdne : d ≠ i := by
        intro e
        rw [e, hp] at hda
        rcases hda with h | h <;> cases h
      rw [hother d hdne]
      exact hda
    · intro j hj
      have hja := hI.execSt j hj
      have hjne : j ≠ i := by
        intro e
        rw [e, hp] at hja
        rcases hja with h | h <;> cases h
      rw [hother j hjne]
      exact hja
    · intro j r hjr
      have hjne : j ≠ i := by
        intro e
        subst e
        rw [hself] at hjr
        cases hjr
      rw [hother j hjne] at hjr
      obtain ⟨f, hor, hfa⟩ := hI.failedFrom j r hjr
      have hfne : f ≠ i := by
        intro e
        rw [e, hp] at hfa
        cases hfa
      exact ⟨f, hor, by rw [hother f hfne]; exact hfa⟩
  | skip i hi hp hdok hs =>
    have hilen : i < a.states.length := by rw [hI.len]; exact hi
    have hself : getSt (setSt a i St.skipped) i = St.skipped := getSt_upd_self rfl hilen
    have hother : ∀ j, j ≠ i → getSt (setSt a i St.skipped) j = getSt a j :=
      fun j hj => getSt_upd_ne rfl hj
    refine ⟨?_, hI.clockLt, ?_, ?_, ?_, ?_⟩
    · show (a.states.set i St.skipped).length = w.length
      rw [List.length_set]
      exact hI.len
    · intro j hj
      by_cases hji : j = i
      · subst hji
        exact is_stale_false_fresh hs
      · rw [hother j hji] at hj
        exact hI.fresh j hj
    · intro j hj d hdm
      have hda : getSt a d = St.succeeded ∨ getSt a d = St.skipped := by
        by_cases hji : j = i
        · subst hji
          exact depsOk_iff.mp hdok d hdm
        · rw [hother j hji] at hj
          exact hI.depsTerm j hj d hdm
      have hdne : d ≠ i := by
        intro e
        rw [e, hp] at hda
        rcases hda with h | h <;> cases h
      rw [hother d hdne]
      exact hda
    · intro j hj
      have hja := hI.execSt j hj
      have hjne : j ≠ i := by
        intro e
        rw [e, hp] at hja
        rcases hja with h | h <;> cases h
      rw [hother j hjne]
      exact hja
    · intro j r hjr
      have hjne : j ≠ i := by
        intro e
        subst e
        rw [hself] at hjr
        cases hjr
      rw [hother j hjne] at hjr
      obtain ⟨f, hor, hfa⟩ := hI.failedFrom j r hjr
      have hfne : f ≠ i := by
        intro e
        rw [e, hp] at hfa
        cases hfa
      exact ⟨f, hor, by rw [hother f hfne]; exact hfa⟩
  | block i hi hp hbf =>
    have hilen : i < a.states.length := by rw [hI.len]; exact hi
    have hself : getSt (setSt a i (St.failed FailReason.blockedByUpstream)) i =
        St.failed FailReason.blockedByUpstream := getSt_upd_self rfl hilen
    have hother : ∀ j, j ≠ i →
        getSt (setSt a i (St.failed FailReason.blockedByUpstream)) j = getSt a j :=
      fun j hj => getSt_upd_ne rfl hj
    refine ⟨?_, hI.clockLt, ?_, ?_, ?_, ?_⟩
    · show (a.states.set i (St.failed FailReason.blockedByUpstream)).length = w.length
      rw [List.length_set]
      exact hI.len
    · intro j hj
      by_cases hji : j = i
      · subst hji
        rw [hself] at hj
        rcases hj with h | h <;> cases h
      · rw [hother j hji] at hj
        exact hI.fresh j hj
    · intro j hj d hdm
      by_cases hji : j = i
      · subst hji
        rw [hself] at hj
        cases hj
      · rw [hother j hji] at hj
        have hda := hI.depsTerm j hj d hdm
        have hdne : d ≠ i := by
          intro e
          rw [e, hp] at hda
          rcases hda with h | h <;> cases h
        rw [hother d hdne]
        exact hda
    · intro j hj
      have hja := hI.execSt j hj
      have hjne : j ≠ i := by
        intro e
        rw [e, hp] at hja
        rcases hja with h | h <;> cases h
      rw [hother j hjne]
      exact hja
    · intro j r hjr
      by_cases hji : j = i
      · subst hji
        obtain ⟨d, hdm, r2, hdr⟩ := hasFailedDep_iff.mp hbf
        obtain ⟨f, hor, hfa⟩ := hI.failedFrom d r2 hdr
        have hreach : Reach (depsOf w) j f := by
          rcases hor with rfl | hr2
          · exact Reach.direct hdm
          · exact Reach.step hdm hr2
        have hfne : f ≠ j := by
          intro e
          rw [e, hp] at hfa
          cases hfa
        exact ⟨f, Or.inr hreach, by rw [hother f hfne]; exact hfa⟩
      · rw [hother j hji] at hjr
        obtain ⟨f, hor, hfa⟩ := hI.failedFrom j r hjr
        have hfne : f ≠ i := by
          intro e
          rw [e, hp] at hfa
          cases hfa
        exact ⟨f, hor, by rw [hother f hfne]; exact hfa⟩
  | dispatch i hi hr hc =>
    have hilen : i < a.states.length := by rw [hI.len]; exact hi
    have hself : getSt (setSt a i St.running) i = St.running := getSt_upd_self rfl hilen
    have hother : ∀ j, j ≠ i → getSt (setSt a i St.running) j = getSt a j :=
      fun j hj => getSt_upd_ne rfl hj
    refine ⟨?_, hI.clockLt, ?_, ?_, ?_, ?_⟩
    · show (a.states.set i St.running).length = w.length
      rw [List.length_set]
      exact hI.len
    · intro j hj
      by_cases hji : j = i
      · subst hji
        rw [hself] at hj
        rcases hj with h | h <;> cases h
      · rw [hother j hji] at hj
        exact hI.fresh j hj
    · intro j hj d hdm
      have hda : getSt a d = St.succeeded ∨ getSt a d = St.skipped := by
        by_cases hji : j = i
        · subst hji
          exact hI.depsTerm j (by rw [hr]; rfl) d hdm
        · rw [hother j hji] at hj
          exact hI.depsTerm j hj d hdm
      have hdne : d ≠ i := by
        intro e
        rw [e, hr] at hda
        rcases hda with h | h <;> cases h
      rw [hother d hdne]
      exact hda
    · intro j hj
      have hja := hI.execSt j hj
      have hjne : j ≠ i := by
        intro e
        rw [e, hr] at hja
        rcases hja with h | h <;> cases h
      rw [hother j hjne]
      exact hja
    · intro j r hjr
      have hjne : j ≠ i := by
        intro e
        subst e
        rw [hself] at hjr
        cases hjr
      rw [hother j hjne] at hjr
      obtain ⟨f, hor, hfa⟩ := hI.failedFrom j r hjr
      have hfne : f ≠ i := by
        intro e
        rw [e, hr] at hfa
        cases hfa
      exact ⟨f, hor, by rw [hother f hfne]; exact hfa⟩
  | completeOk i hi hr ha =>
    have hilen : i < a.states.length := by rw [hI.len]; exact hi
    have hself : getSt ⟨a.states.set i St.succeeded,
        stampAll a.fs (outputsOf w i) a.clock, a.clock + 1, i :: a.executed⟩ i =
        St.succeeded := getSt_upd_self rfl hilen
    have hother : ∀ j, j ≠ i → getSt ⟨a.states.set i St.succeeded,
        stampAll a.fs (outputsOf w i) a.clock, a.clock + 1, i :: a.executed⟩ j =
        getSt a j := fun j hj => getSt_upd_ne rfl hj
    refine ⟨?_, ?_, ?_, ?_, ?_, ?_⟩
    · show (a.states.set i St.succeeded).length = w.length
      rw [List.length_set]
      exact hI.len
    · intro p av hmp
      show av < a.clock + 1
      by_cases hpo : p ∈ outputsOf w i
      · rw [mtime_stampAll_mem hpo] at hmp
        cases hmp
        omega
      · rw [mtime_stampAll_not_mem hpo] at hmp
        have := hI.clockLt p av hmp
        omega
    · intro j hj
      by_cases hji : j = i
      · subst hji
        exact outputsFresh_stamp_self hw hsep hI hi
      · rw [hother j hji] at hj
        exact outputsFresh_stamp hw hsep hI hi hr hj (hI.fresh j hj)
    · intro j hj d hdm
      have hda : getSt a d = St.succeeded ∨ getSt a d = St.skipped := by
        by_cases hji : j = i
        · subst hji
          exact hI.depsTerm j (by rw [hr]; rfl) d hdm
        · rw [hother j hji] at hj
          exact hI.depsTerm j hj d hdm
      have hdne : d ≠ i := by
        intro e
        rw [e, hr] at hda
        rcases hda with h | h <;> cases h
      rw [hother d hdne]
      exact hda
    · intro j hj
      rcases List.mem_cons.mp hj with rfl | hjm
      · exact Or.inl hself
      · have hja := hI.execSt j hjm
        have hjne : j ≠ i := by
          intro e
          rw [e, hr] at hja
          rcases hja with h | h <;> cases h
        rw [hother j hjne]
        exact hja
    · intro j r hjr
      have hjne : j ≠ i := by
        intro e
        subst e
        rw [hself] at hjr
        cases hjr
      rw [hother j hjne] at hjr
      obtain ⟨f, hor, hfa⟩ := hI.failedFrom j r hjr
      have hfne : f ≠ i := by
        intro e
        rw [e, hr] at hfa
        cases hfa
      exact ⟨f, hor, by rw [hother f hfne]; exact hfa⟩
  | completeFail i hi hr ha =>
    have hilen : i < a.states.length := by rw [hI.len]; exact hi
    have hself : getSt ⟨a.states.set i (St.failed FailReason.actionFailed),
        a.fs, a.clock, i :: a.executed⟩ i =
        St.failed FailReason.actionFailed := getSt_upd_self rfl hilen
    have hother : ∀ j, j ≠ i →
        getSt ⟨a.states.set i (St.failed FailReason.actionFailed),
          a.fs, a.clock, i :: a.executed⟩ j = getSt a j :=
      fun j hj => getSt_upd_ne rfl hj
    refine ⟨?_, hI.clockLt, ?_, ?_, ?_, ?_⟩
    · show (a.states.set i (St.failed FailReason.actionFailed)).length = w.length
      rw [List.length_set]
      exact hI.len
    · intro j hj
      by_cases hji : j = i
      · subst hji
        rw [hself] at hj
        rcases hj with h | h <;> cases h
      · rw [hother j hji] at hj
        exact hI.fresh j hj
    · intro j hj d hdm
      have hda : getSt a d = St.succeeded ∨ getSt a d = St.skipped := by
        by_cases hji : j = i
        · subst hji
          exact hI.depsTerm j (by rw [hr]; rfl) d hdm
        · rw [hother j hji] at hj
          exact hI.depsTerm j hj d hdm
      have hdne : d ≠ i := by
        intro e
        rw [e, hr] at hda
        rcases hda with h | h <;> cases h
      rw [hother d hdne]
      exact hda
    · intro j hj
      rcases List.mem_cons.mp hj with rfl | hjm
      · exact Or.inr hself
      · have hja := hI.execSt j hjm
        have hjne : j ≠ i := by
          intro e
          rw [e, hr] at hja
          rcases hja with h | h <;> cases h
        rw [hother j hjne]
        exact hja
    · intro j r hjr
      by_cases hji : j = i
      · subst hji
        exact ⟨j, Or.inl rfl, hself⟩
      · rw [hother j hji] at hjr
        obtain ⟨f, hor, hfa⟩ := hI.failedFrom j r hjr
        have hfne : f ≠ i := by
          intro e
          rw [e, hr] at hfa
          cases hfa
        exact ⟨f, hor, by rw [hother f hfne]; exact hfa⟩

lemma getSt_initRS (w : List TaskInstance) (fs : FS) (c : Nat) (j : Nat) :
    getSt (initRS w fs c) j = St.pending := by
  unfold getSt initRS
  by_cases hj : j < w.length
  · simp [List.getD, List.getElem?_replicate, hj]
  · rw [List.getD_eq_default]
    simp
    omega

/-- The initial Run State satisfies the invariant when the start clock is
later than every snapshot mtime. -/
lemma inv_init (w : List TaskInstance) (fs : FS) (c : Nat)
    (hc : ∀ p a, mtime fs p = some a → a < c) : Inv w (initRS w fs c) := by
  have hpend := getSt_initRS w fs c
  refine ⟨by simp [initRS], hc, ?_, ?_, ?_, ?_⟩
  · intro j hj
    rw [hpend j] at hj
    rcases hj with h | h <;> cases h
  · intro j hj
    rw [hpend j] at hj
    cases hj
  · intro j hj
    cases hj
  · intro j r hjr
    rw [hpend j] at hjr
    cases hjr

/-- The invariant holds at every reachable Run State. -/
lemma inv_reachable {w : List TaskInstance} {act : Nat → Bool} {k : Nat}
    {fs : FS} {c : Nat} {rs : RunState}
    (hw : ∀ m, ∀ d ∈ depsOf w m, d < m) (hsep : OutputsSeparated w)
    (hc : ∀ p a, mtime fs p = some a → a < c)
    (h : Reachable w act k (initRS w fs c) rs) : Inv w rs := by
  induction h with
  | refl => exact inv_init w fs c hc
  | tail hab hbc ih => exact inv_step hw hsep hbc ih

lemma canStep_of_step {w : List TaskInstance} {act : Nat → Bool} {k : Nat}
    {rs rs2 : RunState} (h : Step w act k rs rs2) : canStep w k rs = true := by
  unfold canStep
  rw [List.any_eq_true]
  cases h with
  | promote i hi hp hdok hs => exact ⟨i, List.mem_range.mpr hi, by simp [hp, hdok]⟩
  | skip i hi hp hdok hs => exact ⟨i, List.mem_range.mpr hi, by simp [hp, hdok]⟩
  | block i hi hp hbf => exact ⟨i, List.mem_range.mpr hi, by simp [hp, hbf]⟩
  | dispatch i hi hr hc => exact ⟨i, List.mem_range.mpr hi, by simp [hr, hc]⟩
  | completeOk i hi hr ha => exact ⟨i, List.mem_range.mpr hi, by simp [hr]⟩
  | completeFail i hi hr ha => exact ⟨i, List.mem_range.mpr hi, by simp [hr]⟩

lemma stuck_of_canStep_false {w : List TaskInstance} {act : Nat → Bool} {k : Nat}
    {rs : RunState} (h : canStep w k rs = false) : Stuck w act k rs := by
  intro rs2 hstep
  rw [canStep_of_step hstep] at h
  cases h

lemma stuck_no_running {w : List TaskInstance} {act : Nat → Bool} {k : Nat} {rs : RunState}
    (hs : Stuck w act k rs) (i : Nat) (hi : i < w.length) : getSt rs i ≠ St.running := by
  intro hr
  cases hact : act i with
  | false => exact hs _ (Step.completeFail rs i hi hr hact)
  | true => exact hs _ (Step.completeOk rs i hi hr hact)

lemma stuck_runningCount_zero {w : List TaskInstance} {act : Nat → Bool} {k : Nat}
    {rs : RunState} (hlen : rs.states.length = w.length) (hs : Stuck w act k rs) :
    runningCount rs = 0 := by
  unfold runningCount
  rw [List.countP_eq_zero]
  intro s hsm
  obtain ⟨n, hn, hval⟩ := List.mem_iff_getElem.mp hsm
  have hget : getSt rs n = s := by
    unfold getSt
    rw [List.getD_eq_getElem?_getD, List.getElem?_eq_getElem hn, hval]
    rfl
  have := stuck_no_running hs n (by rw [← hlen]; exact hn)
  rw [hget] at this
  simp
  intro e
  exact this e

lemma lt_of_mem_depsOf {w : List TaskInstance} {i d : Nat} (hd : d ∈ depsOf w i) :
    i < w.length := by
  by_contra h
  rw [depsOf_ge w i (by omega)] at hd
  cases hd

/-- At a stuck state, an instance with a failed direct upstream is itself
failed with the blocked reason. -/
lemma stuck_dep_failed {w : List TaskInstance} {act : Nat → Bool} {k : Nat} {rs : RunState}
    (hI : Inv w rs) (hs : Stuck w act k rs) {i d : Nat} {r : FailReason}
    (hdm : d ∈ depsOf w i) (hdf : getSt rs d = St.failed r) :
    getSt rs i = St.failed FailReason.blockedByUpstream := by
  have hi : i < w.length := lt_of_mem_depsOf hdm
  rcases hst : getSt rs i with _ | _ | _ | _ | r2 | _
  · exact absurd (Step.block rs i hi hst (hasFailedDep_iff.mpr ⟨d, hdm, r, hdf⟩)) (hs _)
  · have := hI.depsTerm i (by rw [hst]; rfl) d hdm
    rw [hdf] at this
    rcases this with h | h <;> cases h
  · have := hI.depsTerm i (by rw [hst]; rfl) d hdm
    rw [hdf] at this
    rcases this with h | h <;> cases h
  · have := hI.depsTerm i (by rw [hst]; rfl) d hdm
    rw [hdf] at this
    rcases this with h | h <;> cases h
  · cases r2 with
    | actionFailed =>
      have := hI.depsTerm i (by rw [hst]; rfl) d hdm
      rw [hdf] at this
      rcases this with h | h <;> cases h
    | blockedByUpstream => rfl
  · have := hI.depsTerm i (by rw [hst]; rfl) d hdm
    rw [hdf] at this
    rcases this with h | h <;> cases h

lemma stuck_reach_failed {w : List TaskInstance} {act : Nat → Bool} {k : Nat} {rs : RunState}
    (hI : Inv w rs) (hs : Stuck w act k rs) {i f : Nat}
    (hreach : Reach (depsOf w) i f) :
    ∀ r, getSt rs f = St.failed r → getSt rs i = St.failed FailReason.blockedByUpstream := by
  induction hreach with
  | direct hd =>
    intro r hf
    exact stuck_dep_failed hI hs hd hf
  | step hd hr2 ih =>
    intro r hf
    exact stuck_dep_failed hI hs hd (ih r hf)

lemma no_reach_of_no_deps {w : List TaskInstance} {i f : Nat} (h : depsOf w i = [])
    (hr : Reach (depsOf w) i f) : False := by
  cases hr with
  | direct hd => rw [h] at hd; cases hd
  | step hd hr2 => rw [h] at hd; cases hd

/-- Claim C3: at the end of a run (a stuck reachable state), every
transitive dependent of a failed instance is `failed` with reason
`blockedByUpstream`, was never executed, and is not `skipped`; and every
instance that neither failed its own action nor transitively depends on an
action failure ends `succeeded` or `skipped` (unrelated branches complete
normally). -/
theorem c3_failure_propagation (w : List TaskInstance) (act : Nat → Bool) (k : Nat)
    (fs : FS) (c : Nat) (rs : RunState)
    (hw : ∀ j < w.length, ∀ d ∈ depsOf w j, d < j)
    (hsep : OutputsSeparated w) (hk : 1 ≤ k)
    (hc : ∀ p a, mtime fs p = some a → a < c)
    (hre : Reachable w act k (initRS w fs c) rs)
    (hstuck : Stuck w act k rs) :
    (∀ f r i, getSt rs f = St.failed r → Reach (depsOf w) i f →
       getSt rs i = St.failed FailReason.blockedByUpstream ∧ i ∉ rs.executed ∧
       getSt rs i ≠ St.skipped) ∧
    (∀ i < w.length, getSt rs i ≠ St.failed FailReason.actionFailed →
       (∀ f, Reach (depsOf w) i f → getSt rs f ≠ St.failed FailReason.actionFailed) →
       getSt rs i = St.succeeded ∨ getSt rs i = St.skipped) := by
  have hw' := wf_all hw
  have hI := inv_reachable hw' hsep hc hre
  constructor
  · intro f r i hf hreach
    have hblk := stuck_reach_failed hI hstuck hreach r hf
    refine ⟨hblk, ?_, ?_⟩
    · intro hmem
      have := hI.execSt i hmem
      rw [hblk] at this
      rcases this with h | h <;> cases h
    · rw [hblk]
      intro h
      cases h
  · intro i
    induction i using Nat.strong_induction_on with
    | _ i ih =>
      intro hilen hnotAF hnoAFup
      have hdepsOK : ∀ d ∈ depsOf w i, getSt rs d = St.succeeded ∨ getSt rs d = St.skipped := by
        intro d hd
        have hdlt : d < i := hw' i d hd
        refine ih d hdlt (by omega) ?_ ?_
        · intro hdf
          exact hnoAFup d (Reach.direct hd) hdf
        · intro f hrf hff
          exact hnoAFup f (Reach.step hd hrf) hff
      rcases hst : getSt rs i with _ | _ | _ | _ | r | _
      · have hdok : depsOk w rs i = true := depsOk_iff.mpr hdepsOK
        cases hstale : is_stale w rs.fs rs.executed i with
        | false => exact absurd (Step.skip rs i hilen hst hdok hstale) (hstuck _)
        | true => exact absurd (Step.promote rs i hilen hst hdok hstale) (hstuck _)
      · have hz := stuck_runningCount_zero hI.len hstuck
        exact absurd (Step.dispatch rs i hilen hst (by omega)) (hstuck _)
      · exact absurd hst (stuck_no_running hstuck i hilen)
      · exact Or.inl rfl
      · obtain ⟨f, hor, hfa⟩ := hI.failedFrom i r hst
        rcases hor with rfl | hrf
        · exact absurd hfa hnotAF
        · exact absurd hfa (hnoAFup f hrf)
      · exact Or.inr rfl

lemma c3_trace : Reachable cw3 act3 1 (initRS cw3 [] 1) c3rs7 :=
  Relation.ReflTransGen.tail
    (Relation.ReflTransGen.tail
      (Relation.ReflTransGen.tail
        (Relation.ReflTransGen.tail
          (Relation.ReflTransGen.tail
            (Relation.ReflTransGen.tail
              (Relation.ReflTransGen.tail Relation.ReflTransGen.refl
                (Step.promote c3rs0 0 (by decide) (by decide) (by decide) (by decide)))
              (Step.dispatch c3rs1 0 (by decide) (by decide) (by decide)))
            (Step.completeFail c3rs2 0 (by decide) (by decide) (by decide)))
          (Step.block c3rs3 1 (by decide) (by decide) (by decide)))
        (Step.promote c3rs4 2 (by decide) (by decide) (by decide) (by decide)))
      (Step.dispatch c3rs5 2 (by decide) (by decide) (by decide)))
    (Step.completeOk c3rs6 2 (by decide) (by decide) (by decide))

lemma c3_stuck : Stuck cw3 act3 1 c3rs7 := stuck_of_canStep_false (by decide)

lemma outputsSeparated_of_bool {w : List TaskInstance}
    (h : outputsSeparatedB w = true) : OutputsSeparated w := by
  unfold outputsSeparatedB at h
  rw [Bool.and_eq_true] at h
  obtain ⟨h1, h2⟩ := h
  constructor
  · intro i hi j hj hij p hp
    have hx := List.all_eq_true.mp h1 i (List.mem_range.mpr hi)
    have hy := List.all_eq_true.mp hx j (List.mem_range.mpr hj)
    rw [Bool.or_eq_true] at hy
    rcases hy with hy | hy
    · exact absurd (by simpa using hy) hij
    · have hz := List.all_eq_true.mp hy p hp
      simpa using hz
  · intro i hi p hp j hj
    have hx := List.all_eq_true.mp h2 i (List.mem_range.mpr hi)
    have hy := List.all_eq_true.mp hx p hp
    have hz := List.all_eq_true.mp hy j (List.mem_range.mpr hj)
    simpa using hz

/-- Witness for C3 on the concrete failing run: the dependent of the failed
instance is `failed` with the blocked reason, unexecuted, not skipped, and
the unrelated branch succeeded. -/
theorem c3_witness :
    (getSt c3rs7 1 = St.failed FailReason.blockedByUpstream ∧ 1 ∉ c3rs7.executed ∧
      getSt c3rs7 1 ≠ St.skipped) ∧
    (getSt c3rs7 2 = St.succeeded ∨ getSt c3rs7 2 = St.skipped) := by
  have H := c3_failure_propagation cw3 act3 1 [] 1 c3rs7 (by decide)
    (outputsSeparated_of_bool (by decide))
    (by decide) (fun p a h => Option.noConfusion h) c3_trace c3_stuck
  refine ⟨H.1 0 FailReason.actionFailed 1 (by decide) (Reach.direct (by decide)), ?_⟩
  refine H.2 2 (by decide) (by decide) ?_
  intro f hr
  exact absurd hr (fun hrr => no_reach_of_no_deps (by decide) hrr)

/-- Claim C2: re-running the workflow on the filesystem left by a fully
successful run (all instances `succeeded` or `skipped`, no file changed)
executes nothing: every reachable second-run state keeps an empty executed
list, an unchanged filesystem and only `pending`/`skipped` instances, and
when the second run is over (stuck) every instance is `skipped`. -/
theorem c2_rerun_idempotent (w : List TaskInstance) (act : Nat → Bool) (k : Nat)
    (act2 : Nat → Bool) (k2 : Nat) (fs : FS) (c : Nat) (rs1 : RunState) (cB : Nat)
    (rs2 : RunState)
    (hw : ∀ j < w.length, ∀ d ∈ depsOf w j, d < j)
    (hsep : OutputsSeparated w)
    (hc : ∀ p a, mtime fs p = some a → a < c)
    (hre1 : Reachable w act k (initRS w fs c) rs1)
    (hdone : ∀ i < w.length, getSt rs1 i = St.succeeded ∨ getSt rs1 i = St.skipped)
    (hre2 : Reachable w act2 k2 (initRS w rs1.fs cB) rs2) :
    (rs2.executed = [] ∧ rs2.fs = rs1.fs ∧
      ∀ i, getSt rs2 i = St.pending ∨ getSt rs2 i = St.skipped) ∧
    (Stuck w act2 k2 rs2 → ∀ i < w.length, getSt rs2 i = St.skipped) := by
  have hw' := wf_all hw
  have hI1 := inv_reachable hw' hsep hc hre1
  have hAF : ∀ i < w.length, outputsFresh w rs1.fs i := fun i hi => hI1.fresh i (hdone i hi)
  have hP : rs2.fs = rs1.fs ∧ rs2.executed = [] ∧ rs2.states.length = w.length ∧
      ∀ i, getSt rs2 i = St.pending ∨ getSt rs2 i = St.skipped := by
    induction hre2 with
    | refl =>
      refine ⟨rfl, rfl, by simp [initRS], ?_⟩
      intro i
      exact Or.inl (getSt_initRS w rs1.fs cB i)
    | tail hab hbc ih =>
      obtain ⟨hfs, hex, hlen, hsts⟩ := ih
      cases hbc with
      | promote i hi hp hdok hs =>
        exfalso
        rw [hfs, hex] at hs
        rw [is_stale_false_of_fresh (hAF i hi)] at hs
        cases hs
      | skip i hi hp hdok hs =>
        refine ⟨hfs, hex, ?_, ?_⟩
        · show ((_ : RunState).states.set i St.skipped).length = w.length
          rw [List.length_set]
          exact hlen
        · intro j
          by_cases hji : j = i
          · subst hji
            exact Or.inr (getSt_upd_self rfl (by rw [hlen]; exact hi))
          · rw [getSt_upd_ne rfl hji]
            exact hsts j
      | block i hi hp hbf =>
        exfalso
        obtain ⟨d, hd, r, hdr⟩ := hasFailedDep_iff.mp hbf
        rcases hsts d with h | h <;> rw [h] at hdr <;> cases hdr
      | dispatch i hi hr hcnt =>
        exfalso
        rcases hsts i with h | h <;> rw [h] at hr <;> cases hr
      | completeOk i hi hr ha =>
        exfalso
        rcases hsts i with h | h <;> rw [h] at hr <;> cases hr
      | completeFail i hi hr ha =>
        exfalso
        rcases hsts i with h | h <;> rw [h] at hr <;> cases hr
  refine ⟨⟨hP.2.1, hP.1, hP.2.2.2⟩, ?_⟩
  intro hstuck i
  induction i using Nat.strong_induction_on with
  | _ i ih =>
    intro hilen
    rcases hP.2.2.2 i with hpend | hskip
    · exfalso
      have hdok : depsOk w rs2 i = true := by
        rw [depsOk_iff]
        intro d hd
        have hdlt := hw' i d hd
        exact Or.inr (ih d hdlt (by omega))
      have hstale : is_stale w rs2.fs rs2.executed i = false := by
        rw [hP.1, hP.2.1]
        exact is_stale_false_of_fresh (hAF i hilen)
      exact hstuck _ (Step.skip rs2 i hilen hpend hdok hstale)
    · exact hskip

lemma c2_run1_trace : Reachable cwChain (fun _ => true) 1 (initRS cwChain [] 1) c2rs9 :=
  Relation.ReflTransGen.tail
    (Relation.ReflTransGen.tail
      (Relation.ReflTransGen.tail
        (Relation.ReflTransGen.tail
          (Relation.ReflTransGen.tail
            (Relation.ReflTransGen.tail
              (Relation.ReflTransGen.tail
                (Relation.ReflTransGen.tail
                  (Relation.ReflTransGen.tail Relation.ReflTransGen.refl
                    (Step.promote c2rs0 0 (by decide) (by decide) (by decide) (by decide)))
                  (Step.dispatch c2rs1 0 (by decide) (by decide) (by decide)))
                (Step.completeOk c2rs2 0 (by decide) (by decide) (by decide)))
              (Step.promote c2rs3 1 (by decide) (by decide) (by decide) (by decide)))
            (Step.dispatch c2rs4 1 (by decide) (by decide) (by decide)))
          (Step.completeOk c2rs5 1 (by decide) (by decide) (by decide)))
        (Step.promote c2rs6 2 (by decide) (by decide) (by decide) (by decide)))
      (Step.dispatch c2rs7 2 (by decide) (by decide) (by decide)))
    (Step.completeOk c2rs8 2 (by decide) (by decide) (by decide))

lemma c2_run2_trace :
    Reachable cwChain (fun _ => true) 1 (initRS cwChain c2rs9.fs 4) c2bs3 :=
  Relation.ReflTransGen.tail
    (Relation.ReflTransGen.tail
      (Relation.ReflTransGen.tail Relation.ReflTransGen.refl
        (Step.skip c2bs0 0 (by decide) (by decide) (by decide) (by decide)))
      (Step.skip c2bs1 1 (by decide) (by decide) (by decide) (by decide)))
    (Step.skip c2bs2 2 (by decide) (by decide) (by decide) (by decide))

lemma c2_stuck : Stuck cwChain (fun _ => true) 1 c2bs3 := stuck_of_canStep_false (by decide)

/-- Witness for C2 on the concrete A→B→C chain: after a fully successful
first run, the second run ends with every instance skipped, zero
executions, and the filesystem untouched. -/
theorem c2_witness :
    c2bs3.executed = [] ∧ c2bs3.fs = c2rs9.fs ∧
    getSt c2bs3 0 = St.skipped ∧ getSt c2bs3 1 = St.skipped ∧
    getSt c2bs3 2 = St.skipped := by
  have H := c2_rerun_idempotent cwChain (fun _ => true) 1 (fun _ => true) 1 [] 1 c2rs9 4 c2bs3
    (by decide) (outputsSeparated_of_bool (by decide)) (fun p a h => Option.noConfusion h)
    c2_run1_trace (by decide) c2_run2_trace
  exact ⟨H.1.1, H.1.2.1, H.2 c2_stuck 0 (by decide), H.2 c2_stuck 1 (by decide),
    H.2 c2_stuck 2 (by decide)⟩

/-- Claim C6 (amended): every scheduler transition either leaves an
instance's state unchanged or performs one of: `pending→ready` (deps
settled and stale), `pending→skipped` (deps settled and not stale),
`pending→failed blockedByUpstream` (some dep failed), `ready→running`,
`running→succeeded`, or `running→failed actionFailed`; in particular the
terminal states `succeeded`, `failed`, `skipped` have no outgoing
transition. -/
theorem c6_transition_shapes (w : List TaskInstance) (act : Nat → Bool) (k : Nat)
    (a b : RunState) (hlen : a.states.length = w.length)
    (hstep : Step w act k a b) :
    ∀ i, getSt b i = getSt a i ∨
      (getSt a i = St.pending ∧ getSt b i = St.ready ∧ depsOk w a i = true ∧
        is_stale w a.fs a.executed i = true) ∨
      (getSt a i = St.pending ∧ getSt b i = St.skipped ∧ depsOk w a i = true ∧
        is_stale w a.fs a.executed i = false) ∨
      (getSt a i = St.pending ∧ getSt b i = St.failed FailReason.blockedByUpstream ∧
        hasFailedDep w a i = true) ∨
      (getSt a i = St.ready ∧ getSt b i = St.running) ∨
      (getSt a i = St.running ∧ getSt b i = St.succeeded) ∨
      (getSt a i = St.running ∧ getSt b i = St.failed FailReason.actionFailed) := by
  cases hstep with
  | promote i hi hp hdok hs =>
    intro j
    by_cases hji : j = i
    · subst hji
      exact Or.inr (Or.inl ⟨hp, getSt_upd_self rfl (by rw [hlen]; exact hi), hdok, hs⟩)
    · exact Or.inl (getSt_upd_ne rfl hji)
  | skip i hi hp hdok hs =>
    intro j
    by_cases hji : j = i
    · subst hji
      exact Or.inr (Or.inr (Or.inl
        ⟨hp, getSt_upd_self rfl (by rw [hlen]; exact hi), hdok, hs⟩))
    · exact Or.inl (getSt_upd_ne rfl hji)
  | block i hi hp hbf =>
    intro j
    by_cases hji : j = i
    · subst hji
      exact Or.inr (Or.inr (Or.inr (Or.inl
        ⟨hp, getSt_upd_self rfl (by rw [hlen]; exact hi), hbf⟩)))
    · exact Or.inl (getSt_upd_ne rfl hji)
  | dispatch i hi hr hc =>
    intro j
    by_cases hji : j = i
    · subst hji
      exact Or.inr (Or.inr (Or.inr (Or.inr (Or.inl
        ⟨hr, getSt_upd_self rfl (by rw [hlen]; exact hi)⟩))))
    · exact Or.inl (getSt_upd_ne rfl hji)
  | completeOk i hi hr ha =>
    intro j
    by_cases hji : j = i
    · subst hji
      exact Or.inr (Or.inr (Or.inr (Or.inr (Or.inr (Or.inl
        ⟨hr, getSt_upd_self rfl (by rw [hlen]; exact hi)⟩)))))
    · exact Or.inl (getSt_upd_ne rfl hji)
  | completeFail i hi hr ha =>
    intro j
    by_cases hji : j = i
    · subst hji
      exact Or.inr (Or.inr (Or.inr (Or.inr (Or.inr (Or.inr
        ⟨hr, getSt_upd_self rfl (by rw [hlen]; exact hi)⟩)))))
    · exact Or.inl (getSt_upd_ne rfl hji)

/-- Claim C6 counterexample: at a reachable state a scheduler transition
changes instance 1 from `pending` directly to
`failed blockedByUpstream`, which is not among the transitions the claim
lists. -/
theorem c6_counterexample :
    Reachable cw6 act6 1 (initRS cw6 [] 1) c6rs3 ∧
    Step cw6 act6 1 c6rs3 c6rs4 ∧
    getSt c6rs3 1 = St.pending ∧
    getSt c6rs4 1 = St.failed FailReason.blockedByUpstream ∧
    getSt c6rs4 1 ≠ getSt c6rs3 1 ∧
    claimAllowedTrans (getSt c6rs3 1) (getSt c6rs4 1) = false :=
  ⟨Relation.ReflTransGen.tail
     (Relation.ReflTransGen.tail
       (Relation.ReflTransGen.tail Relation.ReflTransGen.refl
         (Step.promote c6rs0 0 (by decide) (by decide) (by decide) (by decide)))
       (Step.dispatch c6rs1 0 (by decide) (by decide) (by decide)))
     (Step.completeFail c6rs2 0 (by decide) (by decide) (by decide)),
   Step.block c6rs3 1 (by decide) (by decide) (by decide),
   by decide, by decide, by decide, by decide⟩

/-- Witness for the amended C6 at the concrete blocking step. -/
theorem c6_witness :
    getSt c6rs4 1 = getSt c6rs3 1 ∨
      (getSt c6rs3 1 = St.pending ∧ getSt c6rs4 1 = St.ready ∧ depsOk cw6 c6rs3 1 = true ∧
        is_stale cw6 c6rs3.fs c6rs3.executed 1 = true) ∨
      (getSt c6rs3 1 = St.pending ∧ getSt c6rs4 1 = St.skipped ∧ depsOk cw6 c6rs3 1 = true ∧
        is_stale cw6 c6rs3.fs c6rs3.executed 1 = false) ∨
      (getSt c6rs3 1 = St.pending ∧ getSt c6rs4 1 = St.failed FailReason.blockedByUpstream ∧
        hasFailedDep cw6 c6rs3 1 = true) ∨
      (getSt c6rs3 1 = St.ready ∧ getSt c6rs4 1 = St.running) ∨
      (getSt c6rs3 1 = St.running ∧ getSt c6rs4 1 = St.succeeded) ∨
      (getSt c6rs3 1 = St.running ∧ getSt c6rs4 1 = St.failed FailReason.actionFailed) :=
  c6_transition_shapes cw6 act6 1 c6rs3 c6rs4 (by decide)
    (Step.block c6rs3 1 (by decide) (by decide) (by decide)) 1

/-- Claim C5: a `manyToOne` definition over matched upstream instances
contributes exactly one downstream instance, whose bound upstream instances
are exactly the matched ones; and in any run a `ready` instance has all its
direct upstream instances settled (`succeeded` or `skipped`), so the merge
instance becomes ready only after every matched upstream instance is
terminal. -/
theorem c5_many_to_one
    (td : TaskDefn) (dIdx : Nat) (built : List TaskInstance) (snapshot : List String)
    (hm : td.mode = AggMode.manyToOne) (hne : td.upstreamRefs.isEmpty = false)
    (w : List TaskInstance) (act : Nat → Bool) (k : Nat) (fs : FS) (c : Nat) (rs : RunState)
    (m : Nat)
    (hw : ∀ j < w.length, ∀ d ∈ depsOf w j, d < j) (hsep : OutputsSeparated w)
    (hc : ∀ p a, mtime fs p = some a → a < c)
    (hre : Reachable w act k (initRS w fs c) rs)
    (hready : getSt rs m = St.ready) :
    instancesFor td dIdx built snapshot =
      [⟨dIdx, (matchedUpstream built td).map (fun e => e.1), [], [td.mergeOut]⟩] ∧
    ∀ d ∈ depsOf w m, getSt rs d = St.succeeded ∨ getSt rs d = St.skipped := by
  constructor
  · simp [instancesFor, hne, hm]
  · have hI := inv_reachable (wf_all hw) hsep hc hre
    exact hI.depsTerm m (by rw [hready]; rfl)

lemma c5_trace : Reachable cw5 (fun _ => true) 1 (initRS cw5 [] 1) c5rs10 :=
  Relation.ReflTransGen.tail
    (Relation.ReflTransGen.tail
      (Relation.ReflTransGen.tail
        (Relation.ReflTransGen.tail
          (Relation.ReflTransGen.tail
            (Relation.ReflTransGen.tail
              (Relation.ReflTransGen.tail
                (Relation.ReflTransGen.tail
                  (Relation.ReflTransGen.tail
                    (Relation.ReflTransGen.tail Relation.ReflTransGen.refl
                      (Step.promote c5rs0 0 (by decide) (by decide) (by decide) (by decide)))
                    (Step.dispatch c5rs1 0 (by decide) (by decide) (by decide)))
                  (Step.completeOk c5rs2 0 (by decide) (by decide) (by decide)))
                (Step.promote c5rs3 1 (by decide) (by decide) (by decide) (by decide)))
              (Step.dispatch c5rs4 1 (by decide) (by decide) (by decide)))
            (Step.completeOk c5rs5 1 (by decide) (by decide) (by decide)))
          (Step.promote c5rs6 2 (by decide) (by decide) (by decide) (by decide)))
        (Step.dispatch c5rs7 2 (by decide) (by decide) (by decide)))
      (Step.completeOk c5rs8 2 (by decide) (by decide) (by decide)))
    (Step.promote c5rs9 3 (by decide) (by decide) (by decide) (by decide))

/-- Witness for C5: the merge definition over the three matched upstream
instances yields exactly one fan-in instance bound to all three, and at the
reachable state where it is ready, all three upstreams are settled. -/
theorem c5_witness :
    instancesFor mergeDefn1 1 mergeBuilt mergeSnap = [⟨1, [0, 1, 2], [], ["merged.vcf"]⟩] ∧
    (getSt c5rs10 0 = St.succeeded ∨ getSt c5rs10 0 = St.skipped) ∧
    (getSt c5rs10 1 = St.succeeded ∨ getSt c5rs10 1 = St.skipped) ∧
    (getSt c5rs10 2 = St.succeeded ∨ getSt c5rs10 2 = St.skipped) := by
  have H := c5_many_to_one mergeDefn1 1 mergeBuilt mergeSnap rfl rfl cw5 (fun _ => true) 1
    [] 1 c5rs10 3 (by decide) (outputsSeparated_of_bool (by decide))
    (fun p a h => Option.noConfusion h) c5_trace (by decide)
  refine ⟨?_, H.2 0 (by decide), H.2 1 (by decide), H.2 2 (by decide)⟩
  rw [H.1]
  decide

lemma refsOf_ge (defs : List TaskDefn) (i : Nat) (h : defs.length ≤ i) :
    refsOf defs i = [] := by
  unfold refsOf
  rw [List.getD_eq_default _ _ h]
  rfl

lemma pickReady_spec {defs : List TaskDefn} {done : List Nat} {i : Nat}
    (h : pickReady defs done = some i) :
    i < defs.length ∧ i ∉ done ∧ ∀ d ∈ refsOf defs i, d ∈ done := by
  have hm := List.mem_range.mp (List.mem_of_find?_eq_some h)
  have hp := List.find?_some h
  rw [Bool.and_eq_true] at hp
  refine ⟨hm, ?_, ?_⟩
  · simpa using hp.1
  · intro d hd
    have := List.all_eq_true.mp hp.2 d hd
    simpa using this

lemma doneInv_extend {defs : List TaskDefn} {done : List Nat} {i : Nat}
    (hinv : DoneInv defs done) (hi : i < defs.length) (hni : i ∉ done)
    (hrefs : ∀ d ∈ refsOf defs i, d ∈ done) : DoneInv defs (done ++ [i]) := by
  obtain ⟨hnd, hbd, hsplit⟩ := hinv
  refine ⟨?_, ?_, ?_⟩
  · rw [List.nodup_append]
    refine ⟨hnd, List.nodup_singleton i, ?_⟩
    intro x hx hx2
    rw [List.mem_singleton] at hx2
    subst hx2
    exact hni hx
  · intro j hj
    rcases List.mem_append.mp hj with h | h
    · exact hbd j h
    · rw [List.mem_singleton] at h
      subst h
      exact hi
  · intro a j b heq d hd
    rcases List.eq_nil_or_concat b with rfl | ⟨b2, y, rfl⟩
    · have hinj := List.append_inj' heq (by simp)
      have hij : i = j := by simpa using hinj.2
      rw [← hinj.1]
      exact hrefs d (hij.symm ▸ hd)
    · have heq2 : done ++ [i] = (a ++ j :: b2) ++ [y] := by
        rw [heq]
        simp
      have hinj := List.append_inj' heq2 (by simp)
      exact hsplit a j b2 hinj.1 d hd

lemma topoSort_ok {defs : List TaskDefn} :
    ∀ (fuel : Nat) (done l : List Nat), topoSort defs fuel done = Except.ok l →
      DoneInv defs done → DoneInv defs l ∧ l.length = defs.length := by
  intro fuel
  induction fuel with
  | zero =>
    intro done l h hinv
    unfold topoSort at h
    by_cases hlen : done.length = defs.length
    · rw [if_pos hlen] at h
      cases h
      exact ⟨hinv, hlen⟩
    · rw [if_neg hlen] at h
      cases h
  | succ fuel ih =>
    intro done l h hinv
    unfold topoSort at h
    by_cases hlen : done.length = defs.length
    · rw [if_pos hlen] at h
      cases h
      exact ⟨hinv, hlen⟩
    · rw [if_neg hlen] at h
      rcases hp : pickReady defs done with _ | i
      · rw [hp] at h
        cases h
      · rw [hp] at h
        obtain ⟨h1, h2, h3⟩ := pickReady_spec hp
        exact ih _ l h (doneInv_extend hinv h1 h2 h3)

lemma resolve_complete {defs : List TaskDefn} {l : List Nat}
    (hinv : DoneInv defs l) (hlen : l.length = defs.length) :
    ∀ i < defs.length, i ∈ l := by
  intro i hi
  have hsub : l.toFinset ⊆ Finset.range defs.length := by
    intro x hx
    rw [List.mem_toFinset] at hx
    exact Finset.mem_range.mpr (hinv.2.1 x hx)
  have hcard : l.toFinset.card = defs.length := by
    rw [List.toFinset_card_of_nodup hinv.1]
    exact hlen
  have heq : l.toFinset = Finset.range defs.length :=
    Finset.eq_of_subset_of_card_le hsub (by rw [hcard, Finset.card_range])
  rw [← List.mem_toFinset, heq]
  exact Finset.mem_range.mpr hi

lemma ref_indexOf_lt {defs : List TaskDefn} {l : List Nat}
    (hinv : DoneInv defs l) {i d : Nat} (hi : i ∈ l) (hd : d ∈ refsOf defs i) :
    d ∈ l ∧ List.indexOf d l < List.indexOf i l := by
  obtain ⟨a, b, rfl⟩ := List.append_of_mem hi
  have hda : d ∈ a := hinv.2.2 a i b rfl d hd
  have hna : i ∉ a := by
    have hnd := hinv.1
    rw [List.nodup_append] at hnd
    exact fun him => hnd.2.2 him (List.mem_cons_self i b)
  refine ⟨List.mem_append.mpr (Or.inl hda), ?_⟩
  rw [List.indexOf_append_of_mem hda, List.indexOf_append_of_not_mem hna,
    List.indexOf_cons_self]
  have h1 : List.indexOf d a < a.length := List.indexOf_lt_length.mpr hda
  omega

lemma reach_indexOf_lt {defs : List TaskDefn} {l : List Nat}
    (hinv : DoneInv defs l) {i u : Nat} (hr : Reach (refsOf defs) i u) (hi : i ∈ l) :
    u ∈ l ∧ List.indexOf u l < List.indexOf i l := by
  induction hr with
  | direct hd => exact ref_indexOf_lt hinv hi hd
  | step hd hr2 ih =>
    obtain ⟨hdl, hlt⟩ := ref_indexOf_lt hinv hi hd
    obtain ⟨hul, hlt2⟩ := ih hdl
    exact ⟨hul, by omega⟩

/-- Claim C4: a definition set whose inferred dependency relation has a
cycle makes graph building fail with `CyclicDependency` before any Task
Instance exists (so nothing is ever dispatched); conversely, whenever
resolution succeeds, no definition transitively depends on itself (the
built graph is a DAG). -/
theorem c4_cycle_detection (defs : List TaskDefn) (snapshot : List String) :
    ((∃ i, Reach (refsOf defs) i i) →
      resolveOrder defs = Except.error BuildError.CyclicDependency ∧
      buildGraph defs snapshot = Except.error BuildError.CyclicDependency) ∧
    (∀ ord, resolveOrder defs = Except.ok ord → ∀ i, ¬ Reach (refsOf defs) i i) := by
  have hpart2 : ∀ ord, resolveOrder defs = Except.ok ord →
      ∀ i, ¬ Reach (refsOf defs) i i := by
    intro ord hok i hreach
    have hinv0 : DoneInv defs [] := by
      refine ⟨List.nodup_nil, by simp, ?_⟩
      intro a j b h d hd
      have hl := congrArg List.length h
      simp [List.length_append] at hl
      exact absurd hl (by omega)
    obtain ⟨hinv, hlen⟩ := topoSort_ok defs.length [] ord hok hinv0
    have hcompl := resolve_complete hinv hlen
    by_cases hi : i < defs.length
    · have := reach_indexOf_lt hinv hreach (hcompl i hi)
      omega
    · cases hreach with
      | direct hd =>
        rw [refsOf_ge defs i (by omega)] at hd
        cases hd
      | step hd hr2 =>
        rw [refsOf_ge defs i (by omega)] at hd
        cases hd
  refine ⟨?_, hpart2⟩
  rintro ⟨i, hreach⟩
  rcases hres : resolveOrder defs with e | ord
  · cases e
    refine ⟨rfl, ?_⟩
    unfold buildGraph
    rw [hres]
  · exact absurd hreach (hpart2 ord hres i)

/-- Witness for C4: the cyclic pair fails with `CyclicDependency` before
any instance is built, while the acyclic merge scenario resolves and its
merge definition does not depend on itself. -/
theorem c4_witness :
    (resolveOrder cyclicDefs = Except.error BuildError.CyclicDependency ∧
     buildGraph cyclicDefs [] = Except.error BuildError.CyclicDependency) ∧
    ¬ Reach (refsOf mergeDefs) 1 1 :=
  ⟨(c4_cycle_detection cyclicDefs []).1
     ⟨0, Reach.step (show 1 ∈ refsOf cyclicDefs 0 by decide)
       (Reach.direct (show 0 ∈ refsOf cyclicDefs 1 by decide))⟩,
   (c4_cycle_detection mergeDefs []).2 [0, 1] rfl 1⟩

end ONTVC
